import Mathlib

/-!
Verification development for the spectral-cortex repository (Rust).

The Rust sources are shallowly embedded here:
* machine floats (`f32`/`f64`) are modelled as exact rationals (`ℚ`);
  irrational primitives of the float library (`sqrt`, the exponential in
  the temporal decay) and the external numerical collaborators (the
  embedder, the Lanczos / dense eigensolver, k-means) are passed in as
  explicit oracle parameters, exactly at the places the code calls them;
* `HashMap<u32, SMGNote>` is modelled as an association list
  `List (ℕ × Note)`; the code's iteration-order independence is visible
  in the places where the source sorts the key set before using it;
* Rust strings are modelled as `List Char`;
* fallible operations (`anyhow::Result`) are modelled with `Option`.

Every definition below is translated from a named function of the
repository (the Rust path is given in its doc comment).
-/

namespace SpectralCortex

/-- Rust strings (`&str` / `String`) are modelled as lists of characters. -/
abbrev Str := List Char

/-- Embedding vectors (`Vec<f32>` / `Array1<f32>`) as lists of rationals. -/
abbrev Vec := List ℚ

/-- Dense matrices (`ndarray::Array2<f32>`) as row lists. -/
abbrev Mat := List (List ℚ)

/-- Matrix entry access `m[(i, j)]`; out-of-range reads default to `0`
(the Rust code only indexes in bounds). -/
def mget (m : Mat) (i j : ℕ) : ℚ := (m.getD i []).getD j 0

/-- `f32::clamp(lo, hi)` for `lo ≤ hi` (the code always calls it with
constant bounds `0.0` and `1.0`). -/
def clampQ (x lo hi : ℚ) : ℚ := min (max x lo) hi

/-- Dot product `a.dot(&b)` (`ndarray`); componentwise product, summed. -/
def dotList (a b : Vec) : ℚ := (List.zipWith (· * ·) a b).sum

/-- Sum of squares `v.iter().map(|x| x * x).sum()` — the square of the L2
norm, which is the quantity the code feeds to `sqrt`. -/
def sumSq (v : Vec) : ℚ := (v.map (fun x => x * x)).sum

theorem sumSq_nonneg (v : Vec) : 0 ≤ sumSq v := by
  induction v with
  | nil => simp [sumSq]
  | cons x xs ih =>
    simp only [sumSq, List.map_cons, List.sum_cons]
    have : 0 ≤ x * x := mul_self_nonneg x
    exact add_nonneg this ih

/-- Cauchy–Schwarz for the list dot product: the (possibly truncating)
`zipWith` dot product is dominated by the product of the two full sums of
squares. -/
theorem dotList_sq_le (a b : Vec) : dotList a b ^ 2 ≤ sumSq a * sumSq b := by
  induction a generalizing b with
  | nil => simp [dotList, sumSq]
  | cons x xs ih =>
    cases b with
    | nil => simp [dotList, sumSq]
    | cons y ys =>
      have h := ih ys
      have hA : 0 ≤ sumSq xs := sumSq_nonneg xs
      have hB : 0 ≤ sumSq ys := sumSq_nonneg ys
      simp only [dotList, sumSq, List.zipWith_cons_cons, List.sum_cons,
        List.map_cons] at h hA hB ⊢
      set S := (List.zipWith (· * ·) xs ys).sum with hS
      set A := (xs.map (fun x => x * x)).sum with hA2
      set B := (ys.map (fun x => x * x)).sum with hB2
      by_cases hB0 : B = 0
      · have hS0 : S = 0 := by
          have : S ^ 2 ≤ 0 := by simpa [hB0] using h
          exact pow_eq_zero_iff (n := 2) (by norm_num) |>.mp
            (le_antisymm this (sq_nonneg S))
        rw [hB0, hS0]
        nlinarith [mul_nonneg hA (sq_nonneg y)]
      · have hBpos : 0 < B := lt_of_le_of_ne hB (Ne.symm hB0)
        nlinarith [sq_nonneg (x * B - y * S),
          mul_nonneg (sub_nonneg.2 h) (sq_nonneg y),
          mul_nonneg (sub_nonneg.2 h) hB, mul_pos hBpos hBpos]

theorem clampQ_mem (x : ℚ) {lo hi : ℚ} (h : lo ≤ hi) :
    lo ≤ clampQ x lo hi ∧ clampQ x lo hi ≤ hi := by
  constructor
  · exact le_min (le_max_right x lo) h
  · exact min_le_right _ _

theorem clampQ_of_mem {x lo hi : ℚ} (h1 : lo ≤ x) (h2 : x ≤ hi) :
    clampQ x lo hi = x := by
  simp [clampQ, max_eq_left h1, min_eq_left h2]

/-- Association-list counterpart of `HashMap::get`: with no duplicate keys,
membership of a pair coincides with a successful lookup. -/
theorem lookup_eq_some_iff {β : Type} (l : List (ℕ × β)) (k : ℕ) (v : β)
    (hnd : (l.map Prod.fst).Nodup) : l.lookup k = some v ↔ (k, v) ∈ l := by
  induction l with
  | nil => simp [List.lookup]
  | cons p rest ih =>
    obtain ⟨k', v'⟩ := p
    simp only [List.map_cons, List.nodup_cons] at hnd
    by_cases hk : k = k'
    · subst hk
      simp only [List.lookup, beq_self_eq_true, List.mem_cons]
      constructor
      · rintro h; exact Or.inl (by simpa using h.symm)
      · rintro (h | h)
        · simpa using congrArg some (congrArg Prod.snd h.symm)
        · exact absurd (List.mem_map_of_mem Prod.fst h) hnd.1
    · have hbeq : (k == k') = false := beq_false_of_ne hk
      simp only [List.lookup, hbeq, List.mem_cons]
      rw [ih hnd.2]
      constructor
      · exact Or.inr
      · rintro (h | h)
        · exact absurd (congrArg Prod.fst h) hk
        · exact h

end SpectralCortex

namespace SpectralCortex

/-! ## Temporal re-ranking (`crates/spectral-cortex-lib/src/temporal.rs`) -/

/-- `temporal.rs`: `TemporalMode`. -/
inductive TemporalMode where
  | exponential
  | linearWindow
  | step
  | buckets
deriving DecidableEq, Repr

/-- `temporal.rs`: `TemporalConfig`.  Timestamps and durations are unix
epoch seconds (`u64`), modelled as `ℕ`; float weights as `ℚ`. -/
structure TemporalConfig where
  enabled : Bool
  weight : ℚ
  mode : TemporalMode
  halfLifeSeconds : Option ℕ
  windowSeconds : Option ℕ
  boostMagnitude : Option ℚ
  buckets : Option (List (ℕ × ℚ))
  nowSeconds : Option ℕ
deriving DecidableEq, Repr

/-- `temporal.rs`: `days_to_seconds(DEFAULT_HALF_LIFE_DAYS)` with
`DEFAULT_HALF_LIFE_DAYS = 14.0`; `(14 * 24 * 60 * 60).round.max(1)`. -/
def defaultHalfLifeSeconds : ℕ := 1209600

/-- `temporal.rs`: `impl Default for TemporalConfig`. -/
def defaultTemporalConfig : TemporalConfig :=
  { enabled := true
    weight := 20 / 100
    mode := TemporalMode.exponential
    halfLifeSeconds := some defaultHalfLifeSeconds
    windowSeconds := none
    boostMagnitude := none
    buckets := none
    nowSeconds := none }

/-- `temporal.rs`: `Candidate`. -/
structure Candidate where
  turnId : ℕ
  noteId : ℕ
  rawScore : ℚ
  timestamp : Option ℕ
deriving DecidableEq, Repr

/-- `temporal.rs`: `CandidateWithScores`. -/
structure CandidateWithScores where
  candidate : Candidate
  temporalScore : ℚ
  finalScore : ℚ
deriving DecidableEq, Repr

/-- `temporal.rs`: `compute_temporal_score`.

`expDecay age hl` is the oracle standing for the float expression
`(-LN_2 * age as f64 / hl as f64).exp()`; the source clamps its value into
`[0,1]` (the `is_nan` guard cannot fire in the exact model).  Note that
both divisions by `half_life` / `window` are guarded: a zero divisor
returns `0.0` before any division happens. -/
def computeTemporalScore (expDecay : ℕ → ℕ → ℚ)
    (candidateTs : Option ℕ) (nowSeconds : ℕ) (cfg : TemporalConfig) : ℚ :=
  match candidateTs with
  | none => 0
  | some ts =>
    let ageSeconds := nowSeconds - ts
    match cfg.mode with
    | TemporalMode.exponential =>
      let halfLife := cfg.halfLifeSeconds.getD defaultHalfLifeSeconds
      if halfLife = 0 then 0
      else clampQ (expDecay ageSeconds halfLife) 0 1
    | TemporalMode.linearWindow =>
      let window := cfg.windowSeconds.getD defaultHalfLifeSeconds
      if window = 0 then 0
      else clampQ (1 - (ageSeconds : ℚ) / (window : ℚ)) 0 1
    | TemporalMode.step =>
      let window := cfg.windowSeconds.getD defaultHalfLifeSeconds
      let magnitude := clampQ (cfg.boostMagnitude.getD 1) 0 1
      if ageSeconds ≤ window then magnitude else 0
    | TemporalMode.buckets =>
      match cfg.buckets with
      | some bs =>
        match bs.find? (fun b => ageSeconds ≤ b.1) with
        | some b => clampQ b.2 0 1
        | none => 0
      | none =>
        let halfLife := cfg.halfLifeSeconds.getD defaultHalfLifeSeconds
        if halfLife = 0 then 0
        else clampQ (expDecay ageSeconds halfLife) 0 1

/-- Comparator of the final sort in `re_rank_with_temporal`
(`b.final_score.partial_cmp(&a.final_score)`, i.e. descending, stable). -/
def finalScoreLe (a b : CandidateWithScores) : Prop :=
  b.finalScore ≤ a.finalScore

instance : DecidableRel finalScoreLe :=
  fun a b => inferInstanceAs (Decidable (b.finalScore ≤ a.finalScore))

instance : IsTotal CandidateWithScores finalScoreLe :=
  ⟨fun a b => le_total b.finalScore a.finalScore⟩

instance : IsTrans CandidateWithScores finalScoreLe :=
  ⟨fun _ _ _ hab hbc => le_trans hbc hab⟩

/-- `temporal.rs`: `re_rank_with_temporal`.

`sysNow` stands for the `SystemTime::now()` fallback; the `rayon`
parallel map preserves order, so it is an ordinary `map`. -/
def reRankWithTemporal (expDecay : ℕ → ℕ → ℚ) (candidates : List Candidate)
    (cfg : TemporalConfig) (nowOpt : Option ℕ) (sysNow : ℕ) :
    List CandidateWithScores :=
  let nowSeconds := ((nowOpt.or cfg.nowSeconds).getD sysNow)
  if cfg.enabled = false then
    (candidates.map (fun c =>
      { candidate := c, temporalScore := 0,
        finalScore := clampQ c.rawScore 0 1 })).insertionSort finalScoreLe
  else
    (candidates.map (fun c =>
      let temporalScore := computeTemporalScore expDecay c.timestamp nowSeconds cfg
      let raw := clampQ c.rawScore 0 1
      let w := clampQ cfg.weight 0 1
      { candidate := c, temporalScore := temporalScore,
        finalScore := clampQ ((1 - w) * raw + w * temporalScore) 0
          1 })).insertionSort finalScoreLe

end SpectralCortex

namespace SpectralCortex

/-! ## Data model (`model/smg_note.rs`, `model/conversation_turn.rs`,
`graph/mod.rs`) -/

/-- `model/smg_note.rs`: `SMGNote`. -/
structure Note where
  noteId : ℕ
  rawContent : Str
  context : Str
  embedding : Vec
  norm : ℚ
  sourceTurnIds : List ℕ
  sourceCommitIds : List (Option Str)
  sourceTimestamps : List ℕ
  spectralCoords : Option Vec
  relatedNoteIds : List ℕ
deriving DecidableEq, Repr

/-- `model/conversation_turn.rs`: `ConversationTurn`. -/
structure ConversationTurn where
  turnId : ℕ
  speaker : Str
  content : Str
  topic : Str
  entities : List Str
  commitId : Option Str
  timestamp : ℕ
deriving DecidableEq, Repr

/-- `graph/mod.rs`: `SpectralMemoryGraph`.  The `construction_time`
field (a `Duration`, never read by the verified operations) is omitted. -/
structure Graph where
  notes : List (ℕ × Note)
  nextId : ℕ
  similarityMatrix : Option Mat
  spectralEmbeddings : Option Mat
  clusterLabels : Option (List ℕ)
  clusterCentroids : Option (List (ℕ × Vec))
  clusterCentroidNorms : Option (List (ℕ × ℚ))
  longRangeLinks : Option (List (ℕ × ℕ × ℚ))
deriving DecidableEq, Repr

/-- `graph/mod.rs`: `SpectralMemoryGraph::new()` (the logging side effect
is dropped). -/
def Graph.new : Graph :=
  { notes := []
    nextId := 0
    similarityMatrix := none
    spectralEmbeddings := none
    clusterLabels := none
    clusterCentroids := none
    clusterCentroidNorms := none
    longRangeLinks := none }

/-- `HashMap::insert`: replace any existing binding of the key, keep the
rest of the map. -/
def insertAssoc {β : Type} (l : List (ℕ × β)) (k : ℕ) (v : β) :
    List (ℕ × β) :=
  (l.filter (fun p => p.1 ≠ k)) ++ [(k, v)]

/-- `HashMap::get(&k)` on the notes map. -/
def Graph.findNote (g : Graph) (noteId : ℕ) : Option Note :=
  g.notes.lookup noteId

/-- Comparator of `get_long_range_links` / `detect_long_range_links`:
`b.2.total_cmp(&a.2).then(a.0.cmp(&b.0)).then(a.1.cmp(&b.1))` — higher
similarity first, ties by ascending id pair; `le a b` states that keeping
`a` before `b` is consistent with the comparator (stable sort). -/
def linkLe (a b : ℕ × ℕ × ℚ) : Prop :=
  ¬ (a.2.2 < b.2.2 ∨ (a.2.2 = b.2.2 ∧ (b.1 < a.1 ∨ (b.1 = a.1 ∧ b.2.1 < a.2.1))))

instance : DecidableRel linkLe := fun a b =>
  inferInstanceAs (Decidable
    (¬ (a.2.2 < b.2.2 ∨ (a.2.2 = b.2.2 ∧ (b.1 < a.1 ∨ (b.1 = a.1 ∧ b.2.1 < a.2.1))))))

/-- `graph/mod.rs`: `SpectralMemoryGraph::get_long_range_links`. -/
def Graph.getLongRangeLinks (g : Graph) (topK : Option ℕ) :
    List (ℕ × ℕ × ℚ) :=
  match g.longRangeLinks with
  | some links =>
    let sorted := links.insertionSort linkLe
    match topK with
    | some k => sorted.take k
    | none => sorted
  | none => []

/-- Comparator of the neighbour ranking in `get_related_note_links`:
`b.1.total_cmp(&a.1).then(a.0.cmp(&b.0))`. -/
def neighborLe (a b : ℕ × ℚ) : Prop :=
  ¬ (a.2 < b.2 ∨ (a.2 = b.2 ∧ b.1 < a.1))

instance : DecidableRel neighborLe := fun a b =>
  inferInstanceAs (Decidable (¬ (a.2 < b.2 ∨ (a.2 = b.2 ∧ b.1 < a.1))))

/-- The neighbour-aggregation loop of `get_related_note_links`: fold over
the links, keeping per neighbour the maximal similarity
(`entry.and_modify(max).or_insert`). -/
def aggregateNeighbors (noteId : ℕ) (links : List (ℕ × ℕ × ℚ)) :
    List (ℕ × ℚ) :=
  links.foldl
    (fun acc l =>
      if l.1 = noteId then
        match acc.lookup l.2.1 with
        | some cur => insertAssoc acc l.2.1 (max cur l.2.2)
        | none => insertAssoc acc l.2.1 l.2.2
      else if l.2.1 = noteId then
        match acc.lookup l.1 with
        | some cur => insertAssoc acc l.1 (max cur l.2.2)
        | none => insertAssoc acc l.1 l.2.2
      else acc)
    []

/-- `graph/mod.rs`: `SpectralMemoryGraph::get_related_note_links`. -/
def Graph.getRelatedNoteLinks (g : Graph) (noteId : ℕ) (topK : Option ℕ) :
    List (ℕ × ℚ) :=
  match g.longRangeLinks with
  | some links =>
    let ranked := (aggregateNeighbors noteId links).insertionSort neighborLe
    match topK with
    | some k => ranked.take k
    | none => ranked
  | none =>
    match g.findNote noteId with
    | some note =>
      let ids := note.relatedNoteIds.map (fun nid => (nid, (0 : ℚ)))
      match topK with
      | some k => ids.take k
      | none => ids
    | none => []

/-- `conversation_turn.rs`: `ConversationTurn::clean_context` —
whitespace-collapsed content.  `splitWhitespaceStr` models
`str::split_whitespace`. -/
def splitWhitespaceStr (s : Str) : List Str :=
  (s.splitOnP (fun c => c.isWhitespace)).filter (fun w => w ≠ [])

/-- Join with single blanks (`Vec::join(" ")`). -/
def joinWithSpace (ws : List Str) : Str :=
  match ws with
  | [] => []
  | w :: rest => rest.foldl (fun acc x => acc ++ [' '] ++ x) w

/-- `clean_context`: split on whitespace and re-join with single spaces. -/
def cleanContext (t : ConversationTurn) : Str :=
  joinWithSpace (splitWhitespaceStr t.content)

/-- `graph/mod.rs`: `SpectralMemoryGraph::ingest_turn`.

`embedOne` is the external embedder (`embed::get_embedding`), `sqrtO`
models `f32::sqrt` in the norm computation; an embedder failure
propagates (`none`) without touching the graph. -/
def Graph.ingestTurn (embedOne : Str → Option Vec) (sqrtO : ℚ → ℚ)
    (g : Graph) (turn : ConversationTurn) : Option Graph :=
  match embedOne turn.content with
  | none => none
  | some emb =>
    let norm := sqrtO (sumSq emb)
    let note : Note :=
      { noteId := g.nextId
        rawContent := turn.content
        context := cleanContext turn
        embedding := emb
        norm := norm
        sourceTurnIds := [turn.turnId]
        sourceCommitIds := [turn.commitId]
        sourceTimestamps := [turn.timestamp]
        spectralCoords := none
        relatedNoteIds := [] }
    some { g with notes := insertAssoc g.notes g.nextId note
                  nextId := g.nextId + 1 }

/-- The note-reconstruction loop of `ingest_turns_batch` (progress
callbacks are side effects only and are dropped). -/
def ingestBatchStep (sqrtO : ℚ → ℚ) (g : Graph)
    (p : ConversationTurn × Vec) : Graph :=
  let norm := sqrtO (sumSq p.2)
  let note : Note :=
    { noteId := g.nextId
      rawContent := p.1.content
      context := cleanContext p.1
      embedding := p.2
      norm := norm
      sourceTurnIds := [p.1.turnId]
      sourceCommitIds := [p.1.commitId]
      sourceTimestamps := [p.1.timestamp]
      spectralCoords := none
      relatedNoteIds := [] }
  { g with notes := insertAssoc g.notes g.nextId note
           nextId := g.nextId + 1 }

/-- `graph/mod.rs`: `SpectralMemoryGraph::ingest_turns_batch`.
`embedBatch` is `embed::get_embeddings`; the zip truncates to the shorter
list exactly as `turns.iter().zip(embeddings.iter())` does. -/
def Graph.ingestTurnsBatch (embedBatch : List Str → Option (List Vec))
    (sqrtO : ℚ → ℚ) (g : Graph) (turns : List ConversationTurn) :
    Option Graph :=
  if turns = [] then some g
  else
    match embedBatch (turns.map (fun t => t.content)) with
    | none => none
    | some embeddings =>
      some ((turns.zip embeddings).foldl (ingestBatchStep sqrtO) g)

end SpectralCortex

namespace SpectralCortex

/-! ## Persistence (`crates/spectral-cortex-lib/src/lib.rs`) -/

/-- `lib.rs`: `SerializableNote` (the on-disk JSON shape of one note). -/
structure SerializableNote where
  noteId : ℕ
  rawContent : Str
  context : Str
  embedding : Vec
  norm : ℚ
  sourceTurnIds : List ℕ
  sourceCommitIds : Option (List (Option Str))
  sourceTimestamps : Option (List ℕ)
  relatedNoteIds : List ℕ
deriving DecidableEq, Repr

/-- `lib.rs`: `SerializableSMG` (metadata is a string map; it is not read
back by `load_smg_json` and is modelled as an opaque association list). -/
structure SerializableSMG where
  metadata : List (Str × Str)
  notes : List SerializableNote
  clusterLabels : Option (List ℕ)
  clusterCentroids : Option (List (ℕ × Vec))
  clusterCentroidNorms : Option (List (ℕ × ℚ))
  longRangeLinks : Option (List (ℕ × ℕ × ℚ))
deriving DecidableEq, Repr

/-- The per-note restore step of the loop in `load_smg_json`: insert the
note under its persisted id and keep `next_id` ahead of it
(`if smg.next_id <= nid { smg.next_id = nid + 1 }`). -/
def loadNoteStep (g : Graph) (sn : SerializableNote) : Graph :=
  let nid := sn.noteId
  let note : Note :=
    { noteId := nid
      rawContent := sn.rawContent
      context := sn.context
      embedding := sn.embedding
      norm := sn.norm
      sourceTurnIds := sn.sourceTurnIds
      sourceCommitIds := sn.sourceCommitIds.getD []
      sourceTimestamps := sn.sourceTimestamps.getD []
      spectralCoords := none
      relatedNoteIds := sn.relatedNoteIds }
  { g with notes := insertAssoc g.notes nid note
           nextId := if g.nextId ≤ nid then nid + 1 else g.nextId }

/-- `lib.rs`: `load_smg_json`, modelled from the already-deserialized
`SerializableSMG` value (file I/O and JSON decoding are external; a parse
failure would surface before this logic runs). -/
def loadSmg (serial : SerializableSMG) : Graph :=
  let g := serial.notes.foldl loadNoteStep Graph.new
  { g with clusterLabels := serial.clusterLabels
           clusterCentroids := serial.clusterCentroids
           clusterCentroidNorms := serial.clusterCentroidNorms
           similarityMatrix := none
           spectralEmbeddings := none
           longRangeLinks := serial.longRangeLinks }

end SpectralCortex

namespace SpectralCortex

/-! ## Spectral engine (`graph/spectral.rs` and
`build_spectral_structure` in `graph/mod.rs`) -/

/-- `graph/mod.rs`: `SMG_NUM_SPECTRAL_DIMS`. -/
def smgNumSpectralDims : ℕ := 8

/-- `graph/mod.rs`: `ADJ_SPARSE_THRESHOLD` (0.2). -/
def adjSparseThreshold : ℚ := 2 / 10

/-- `graph/mod.rs`: `SPECTRAL_LINK_SIM` (0.7). -/
def spectralLinkSim : ℚ := 7 / 10

/-- `graph/mod.rs`: `EMBED_LINK_SIM` (0.5). -/
def embedLinkSim : ℚ := 5 / 10

/-- `graph/mod.rs`: `MAX_CLUSTERS`. -/
def maxClusters : ℕ := 12

/-- `graph/mod.rs`: `MIN_CLUSTERS`. -/
def minClusters : ℕ := 2

/-- The stable note ordering of `build_spectral_structure` /
`retrieve_candidates`: collect the keys of the notes map and
`sort_unstable` them ascending. -/
def noteIdsOf (g : Graph) : List ℕ :=
  (g.notes.map Prod.fst).insertionSort (fun a b => a ≤ b)

/-- `graph/spectral.rs`: `assemble_embedding_matrix` — row `i` is the
embedding of note `order[i]` (the source indexes the map directly and
would panic on a missing id; the ids always come from the key set). -/
def assembleEmbeddingMatrix (notes : List (ℕ × Note)) (order : List ℕ) :
    Mat :=
  order.map (fun nid => ((notes.lookup nid).map Note.embedding).getD [])

/-- One cosine entry of `cosine_similarity_matrix`: zero when either norm
is zero, `dot / (norm_i * norm_j)` otherwise. -/
def cosineEntry (sqrtO : ℚ → ℚ) (vi vj : Vec) : ℚ :=
  let normI := sqrtO (sumSq vi)
  let normJ := sqrtO (sumSq vj)
  if normI = 0 ∨ normJ = 0 then 0 else dotList vi vj / (normI * normJ)

/-- `graph/spectral.rs`: `cosine_similarity_matrix`.  The source computes
the upper triangle (`j ∈ i..n`) and mirrors it into a symmetric matrix;
entry `(i, j)` with `i > j` therefore holds the value computed at
`(j, i)`, which is how the mirrored layout is written here. -/
def cosineSimilarityMatrix (sqrtO : ℚ → ℚ) (x : Mat) : Mat :=
  let n := x.length
  (List.range n).map (fun i =>
    (List.range n).map (fun j =>
      if i ≤ j then cosineEntry sqrtO (x.getD i []) (x.getD j [])
      else cosineEntry sqrtO (x.getD j []) (x.getD i [])))

/-- `graph/spectral.rs`: `sparsify_adj` — zero the diagonal and every
entry below the threshold (written functionally; the source mutates in
place). -/
def sparsifyAdj (w : Mat) (threshold : ℚ) : Mat :=
  w.enum.map (fun p =>
    p.2.enum.map (fun q => if p.1 = q.1 ∨ q.2 < threshold then 0 else q.2))

/-- `graph/spectral.rs`: `degree_vector` — row sums `W · 1`. -/
def degreeVector (w : Mat) : Vec := w.map List.sum

/-- `graph/spectral.rs`: `normalized_laplacian`
(`L = I - D^{-1/2} W D^{-1/2}`, rows of zero degree contribute zero). -/
def normalizedLaplacian (sqrtO : ℚ → ℚ) (w : Mat) : Mat :=
  let n := w.length
  let degree := degreeVector w
  let dInvSqrt := degree.map (fun v => if 0 < v then 1 / sqrtO v else 0)
  (List.range n).map (fun i =>
    (List.range n).map (fun j =>
      let v := dInvSqrt.getD i 0 * mget w i j * dInvSqrt.getD j 0
      if i = j then 1 - v else v))

/-- `graph/spectral.rs`: `compute_spectral_embeddings` — first `k`
columns of the eigenvector matrix, optionally row-normalized (rows with
zero norm are kept). -/
def computeSpectralEmbeddings (sqrtO : ℚ → ℚ) (evecs : Mat) (k : ℕ)
    (rowNormalize : Bool) : Mat :=
  let kk := min k ((evecs.getD 0 []).length)
  let spec := evecs.map (fun row => (List.range kk).map (fun j => row.getD j 0))
  if rowNormalize then
    spec.map (fun row =>
      let norm := sqrtO (sumSq row)
      if 0 < norm then row.map (fun v => v / norm) else row)
  else spec

/-- `graph/spectral.rs`: `eigengap_heuristic` — index of the largest
consecutive gap of the (ascending) eigenvalue list, scanning `i ∈
[1, len)` with a strictly-improving best (`gap > best_gap`), initial best
`(1, 0.0)`; results below 2 are raised to 2, and lists of length ≤ 2
return 2 outright. -/
def eigengapHeuristic (eigenvalues : List ℚ) : ℕ :=
  let n := eigenvalues.length
  if n ≤ 2 then 2
  else
    let best := (List.range' 1 (n - 1)).foldl
      (fun b i =>
        let gap := eigenvalues.getD i 0 - eigenvalues.getD (i - 1) 0
        if b.2 < gap then (i, gap) else b)
      (1, (0 : ℚ))
    if best.1 < 2 then 2 else best.1

/-- The cluster-count computation of `build_spectral_structure` step 7:
`eigengap_heuristic` clamped into `[MIN_CLUSTERS, MAX_CLUSTERS]` and then
`min`-ed with `max(MIN_CLUSTERS, n)`. -/
def nClustersFrom (eigenvalues : List ℚ) (n : ℕ) : ℕ :=
  min (min (max (eigengapHeuristic eigenvalues) minClusters) maxClusters)
    (max minClusters n)

/-- Componentwise vector addition (the `entry[k] += v` accumulation). -/
def addVec (a b : Vec) : Vec := List.zipWith (· + ·) a b

/-- `graph/spectral.rs`: `compute_centroids_in_embedding_space` — per
cluster, the arithmetic mean of the original embeddings of its members
(sums and counts are accumulated in one pass, then divided). -/
def computeCentroids (labels : List ℕ) (noteIds : List ℕ)
    (notes : List (ℕ × Note)) : List (ℕ × Vec) :=
  if labels = [] then []
  else
    let dim := (((notes.lookup (noteIds.getD 0 0)).map Note.embedding).getD []).length
    let sums : List (ℕ × (Vec × ℕ)) := labels.enum.foldl
      (fun acc p =>
        let nid := noteIds.getD p.1 0
        let emb := ((notes.lookup nid).map Note.embedding).getD []
        match acc.lookup p.2 with
        | some sc => insertAssoc acc p.2 (addVec sc.1 emb, sc.2 + 1)
        | none => insertAssoc acc p.2 (addVec (List.replicate dim 0) emb, 1))
      []
    sums.map (fun q => (q.1, q.2.1.map (fun v => v / (q.2.2 : ℚ))))

/-- `graph/spectral.rs`: `detect_long_range_links` — for each pair
`i < j`, emit `(note_ids[i], note_ids[j], sp_sim)` when the spectral
cosine exceeds `spectral_sim_thr` and the stored embedding similarity is
below `embed_sim_thr`; sort by descending similarity (ties by ascending
id pair) and truncate to `top_k` when given.  (The source hoists the
row norms out of the inner loop; the cosine value per pair is exactly
`cosineEntry`.) -/
def detectLongRangeLinks (sqrtO : ℚ → ℚ) (spec : Mat) (embSim : Mat)
    (spectralSimThr embedSimThr : ℚ) (noteIds : List ℕ)
    (topK : Option ℕ) : List (ℕ × ℕ × ℚ) :=
  let n := spec.length
  let pairs := (List.range n).flatMap (fun i =>
    let vi := spec.getD i []
    (List.range' (i + 1) (n - (i + 1))).filterMap (fun j =>
      let vj := spec.getD j []
      let spSim := cosineEntry sqrtO vi vj
      let embS := mget embSim i j
      if spectralSimThr < spSim ∧ embS < embedSimThr then
        some (noteIds.getD i 0, noteIds.getD j 0, spSim)
      else none))
  let sorted := pairs.insertionSort linkLe
  match topK with
  | some k => sorted.take k
  | none => sorted

/-- Clearing of every `related_note_ids` before re-population (the
`note.related_note_ids.clear()` loop of `build_spectral_structure`). -/
def clearRelated (notes : List (ℕ × Note)) : List (ℕ × Note) :=
  notes.map (fun p => (p.1, { p.2 with relatedNoteIds := [] }))

/-- One half of the back-compat population loop: push `dst` onto the
related list of `src` if that note exists and does not list it yet. -/
def pushRelated (notes : List (ℕ × Note)) (src dst : ℕ) :
    List (ℕ × Note) :=
  match notes.lookup src with
  | some note =>
    if dst ∈ note.relatedNoteIds then notes
    else insertAssoc notes src
      { note with relatedNoteIds := note.relatedNoteIds ++ [dst] }
  | none => notes

/-- The `for (a, b, _) in pairs` loop of `build_spectral_structure`. -/
def addRelatedPairs (notes : List (ℕ × Note))
    (pairs : List (ℕ × ℕ × ℚ)) : List (ℕ × Note) :=
  pairs.foldl (fun ns pr => pushRelated (pushRelated ns pr.1 pr.2.1) pr.2.1 pr.1)
    notes

/-- Steps 1–3 of `build_spectral_structure`: embedding matrix, cosine
similarity, sparsification — the matrix stored as `similarity_matrix`. -/
def buildSimilarity (sqrtO : ℚ → ℚ) (g : Graph) : Mat :=
  sparsifyAdj
    (cosineSimilarityMatrix sqrtO (assembleEmbeddingMatrix g.notes (noteIdsOf g)))
    adjSparseThreshold

/-- The cluster count `build_spectral_structure` passes to k-means:
steps 1–5 followed by step 7 (`eigO` is the eigensolver oracle standing
for `spectral_decomposition`, Lanczos with dense fallback). -/
def buildClusterCount (sqrtO : ℚ → ℚ) (eigO : Mat → Option (List ℚ × Mat))
    (g : Graph) : Option ℕ :=
  (eigO (normalizedLaplacian sqrtO (buildSimilarity sqrtO g))).map
    (fun ev => nClustersFrom ev.1 g.notes.length)

/-- `graph/mod.rs`: `SpectralMemoryGraph::build_spectral_structure`.

`eigO` models `spectral_decomposition` (Lanczos, dense fallback on
failure), `kmO` models `run_kmeans_on_spectral`; a failure of either
aborts the build (`none`).  Progress callbacks are side effects only and
are dropped.  (On the error path the source has already stored the
similarity matrix and spectral embeddings; the claims below only concern
the successful build.) -/
def Graph.buildSpectralStructure (sqrtO : ℚ → ℚ)
    (eigO : Mat → Option (List ℚ × Mat)) (kmO : Mat → ℕ → Option (List ℕ))
    (g : Graph) : Option Graph :=
  let n := g.notes.length
  if n < 3 then some g
  else
    let noteIds := noteIdsOf g
    let sim := buildSimilarity sqrtO g
    let lap := normalizedLaplacian sqrtO sim
    match eigO lap with
    | none => none
    | some ev =>
      let nComponents := min smgNumSpectralDims (n - 1)
      let spectralEmb := computeSpectralEmbeddings sqrtO ev.2 nComponents true
      let nClusters := nClustersFrom ev.1 n
      match kmO spectralEmb nClusters with
      | none => none
      | some labels =>
        let centroidsMap := computeCentroids labels noteIds g.notes
        let centroidNorms := centroidsMap.map (fun p => (p.1, sqrtO (sumSq p.2)))
        let pairs := detectLongRangeLinks sqrtO spectralEmb sim
          spectralLinkSim embedLinkSim noteIds none
        some { g with
          similarityMatrix := some sim
          spectralEmbeddings := some spectralEmb
          clusterLabels := some labels
          clusterCentroids := some centroidsMap
          clusterCentroidNorms := some centroidNorms
          longRangeLinks := some pairs
          notes := addRelatedPairs (clearRelated g.notes) pairs }

end SpectralCortex

namespace SpectralCortex

/-! ## Retrieval engine (`graph/mod.rs`) -/

/-- Comparator of the score rankings in `retrieve_candidates`
(`b.1.partial_cmp(&a.1).unwrap()`, i.e. descending). -/
def scoreLe (a b : ℕ × ℚ) : Prop := b.2 ≤ a.2

instance : DecidableRel scoreLe :=
  fun a b => inferInstanceAs (Decidable (b.2 ≤ a.2))

instance : IsTotal (ℕ × ℚ) scoreLe := ⟨fun a b => le_total b.2 a.2⟩

instance : IsTrans (ℕ × ℚ) scoreLe := ⟨fun _ _ _ hab hbc => le_trans hbc hab⟩

/-- Per-note raw cosine similarity of `retrieve_candidates` (zero when
either stored norm or query norm is zero). -/
def rawSimOf (qArr : Vec) (normQ : ℚ) (note : Note) : ℚ :=
  if note.norm = 0 ∨ normQ = 0 then 0
  else dotList note.embedding qArr / (note.norm * normQ)

/-- Placeholder for the panic of a direct `self.notes[nid]` index on a
missing id (the ids handed to the scoring loop always come from the key
set, so this default is never reached on the source's inputs). -/
def emptyNote : Note :=
  { noteId := 0, rawContent := [], context := [], embedding := [],
    norm := 0, sourceTurnIds := [], sourceCommitIds := [],
    sourceTimestamps := [], spectralCoords := none, relatedNoteIds := [] }

/-- `self.notes[nid]` in the scoring loops. -/
def noteAt (g : Graph) (nid : ℕ) : Note :=
  (g.notes.lookup nid).getD emptyNote

/-- The centroid-ranking part of the cluster boost: cosine similarity of
the query against every centroid (using the cached norms), sorted
descending, top-3 cluster ids. -/
def topClustersOf (qArr : Vec) (normQ : ℚ) (centroids : List (ℕ × Vec))
    (centroidNorms : List (ℕ × ℚ)) : List ℕ :=
  let centroidScores := centroids.map (fun p =>
    let normC := (centroidNorms.lookup p.1).getD 0
    (p.1, if normC = 0 ∨ normQ = 0 then 0 else dotList p.2 qArr / (normC * normQ)))
  ((centroidScores.insertionSort scoreLe).take 3).map Prod.fst

/-- The boost loop: multiply the score of every note whose cluster label
is among the top clusters by 1.2. -/
def boostScores (labels : List ℕ) (topClusters : List ℕ)
    (scores : List (ℕ × ℚ)) : List (ℕ × ℚ) :=
  scores.enum.map (fun p =>
    match labels.get? p.1 with
    | some lbl =>
      if topClusters.contains lbl then (p.2.1, p.2.2 * (12 / 10)) else p.2
    | none => p.2)

/-- Common body of `retrieve_candidates` and
`retrieve_candidates_filtered` (the source duplicates this code with the
id list swapped: the unfiltered variant scores the sorted key set, the
filtered variant scores the caller-provided id list). -/
def retrieveCandidatesOn (sqrtO : ℚ → ℚ) (g : Graph) (queryEmb : Vec)
    (candidateNoteK : ℕ) (noteIds : List ℕ) : List Candidate :=
  let qArr := queryEmb
  let normQ := sqrtO (dotList qArr qArr)
  let scores := noteIds.enum.map (fun p => (p.1, rawSimOf qArr normQ (noteAt g p.2)))
  let boosted :=
    match g.clusterLabels, g.clusterCentroids, g.clusterCentroidNorms with
    | some labels, some centroids, some centroidNorms =>
      boostScores labels (topClustersOf qArr normQ centroids centroidNorms) scores
    | _, _, _ => scores
  let ranked := boosted.insertionSort scoreLe
  (ranked.take candidateNoteK).flatMap (fun p =>
    let nid := noteIds.getD p.1 0
    match g.notes.lookup nid with
    | some note =>
      note.sourceTurnIds.enum.map (fun q =>
        { turnId := q.2, noteId := nid, rawScore := p.2,
          timestamp := note.sourceTimestamps.get? q.1 : Candidate })
    | none => [])

/-- `graph/mod.rs`: `SpectralMemoryGraph::retrieve_candidates`
(`embedOne` is the external query embedder). -/
def Graph.retrieveCandidates (embedOne : Str → Option Vec) (sqrtO : ℚ → ℚ)
    (g : Graph) (query : Str) (candidateNoteK : ℕ) :
    Option (List Candidate) :=
  (embedOne query).map (fun qe =>
    retrieveCandidatesOn sqrtO g qe candidateNoteK (noteIdsOf g))

/-- `graph/mod.rs`: `SpectralMemoryGraph::retrieve_candidates_filtered`. -/
def Graph.retrieveCandidatesFiltered (embedOne : Str → Option Vec)
    (sqrtO : ℚ → ℚ) (g : Graph) (query : Str) (candidateNoteK : ℕ)
    (filteredNoteIds : List ℕ) : Option (List Candidate) :=
  (embedOne query).map (fun qe =>
    retrieveCandidatesOn sqrtO g qe candidateNoteK filteredNoteIds)

/-- `graph/mod.rs`: `SpectralMemoryGraph::retrieve_with_scores_config`. -/
def Graph.retrieveWithScoresConfig (embedOne : Str → Option Vec)
    (sqrtO : ℚ → ℚ) (expDecay : ℕ → ℕ → ℚ) (g : Graph) (query : Str)
    (topK : ℕ) (temporalCfg : Option TemporalConfig) (sysNow : ℕ) :
    Option (List (ℕ × ℚ)) :=
  match g.retrieveCandidates embedOne sqrtO query topK with
  | none => none
  | some candidates =>
    let cfg := temporalCfg.getD defaultTemporalConfig
    some ((reRankWithTemporal expDecay candidates cfg none sysNow).map
      (fun c => (c.candidate.turnId, c.finalScore)))

/-- The time-envelope filter predicate of
`retrieve_with_scores_config_filtered`: notes without timestamps are
dropped; a note is kept unless its newest timestamp predates
`time_start` or its oldest postdates `time_end`. -/
def keepNote (note : Note) (timeStart timeEnd : Option ℕ) : Bool :=
  match note.sourceTimestamps with
  | [] => false
  | t :: rest =>
    let noteMinTs := rest.foldl Nat.min t
    let noteMaxTs := rest.foldl Nat.max t
    !((match timeStart with
       | some s => decide (noteMaxTs < s)
       | none => false) ||
      (match timeEnd with
       | some e => decide (e < noteMinTs)
       | none => false))

/-- The filtered id set of `retrieve_with_scores_config_filtered`. -/
def filteredNoteIdsOf (g : Graph) (timeStart timeEnd : Option ℕ) :
    List ℕ :=
  (g.notes.filter (fun p => keepNote p.2 timeStart timeEnd)).map Prod.fst

/-- `graph/mod.rs`:
`SpectralMemoryGraph::retrieve_with_scores_config_filtered`. -/
def Graph.retrieveWithScoresConfigFiltered (embedOne : Str → Option Vec)
    (sqrtO : ℚ → ℚ) (expDecay : ℕ → ℕ → ℚ) (g : Graph) (query : Str)
    (topK : ℕ) (temporalCfg : Option TemporalConfig)
    (timeStart timeEnd : Option ℕ) (sysNow : ℕ) :
    Option (List (ℕ × ℚ)) :=
  if timeStart = none ∧ timeEnd = none then
    g.retrieveWithScoresConfig embedOne sqrtO expDecay query topK temporalCfg sysNow
  else
    let filteredNoteIds := filteredNoteIdsOf g timeStart timeEnd
    if filteredNoteIds = [] then some []
    else
      match g.retrieveCandidatesFiltered embedOne sqrtO query topK filteredNoteIds with
      | none => none
      | some candidates =>
        let cfg := temporalCfg.getD defaultTemporalConfig
        some ((reRankWithTemporal expDecay candidates cfg none sysNow).map
          (fun c => (c.candidate.turnId, c.finalScore)))

end SpectralCortex

namespace SpectralCortex

/-! ## Commit-message segmenter
(`crates/spectral-cortex-cli/src/git_commit_split.rs`) -/

/-- `char::is_whitespace` (the model restricts to the ASCII whitespace
recognised by `Char.isWhitespace`). -/
def wsChar (c : Char) : Bool := c.isWhitespace

/-- `str::trim`: drop whitespace from both ends. -/
def trimStr (s : Str) : Str :=
  ((s.dropWhile wsChar).reverse.dropWhile wsChar).reverse

/-- The `\r`-stripping of `str::lines` on CRLF line endings. -/
def stripCarriageReturn (l : Str) : Str :=
  if l.getLast? = some '\r' then l.dropLast else l

/-- `str::lines`: split on `\n` (a final trailing newline does not
produce an empty last line), stripping a trailing `\r` from each line. -/
def linesOf (s : Str) : List Str :=
  let parts := List.splitOn '\n' s
  let parts := if parts.getLast? = some [] then parts.dropLast else parts
  parts.map stripCarriageReturn

/-- `git_commit_split.rs`: `CommitSplitMode`. -/
inductive CommitSplitMode where
  | off
  | auto
  | strict
deriving DecidableEq, Repr

/-- `git_commit_split.rs`: `ParseMode`. -/
inductive ParseMode where
  | conventionalHeader
  | bulletGrouped
  | paragraphFallback
deriving DecidableEq, Repr

/-- `git_commit_split.rs`: `CommitSegment`. -/
structure CommitSegment where
  header : Str
  details : List Str
  confidence : ℚ
  parseMode : ParseMode
deriving DecidableEq, Repr

/-- `git_commit_split.rs`: `CommitSplitConfig`. -/
structure CommitSplitConfig where
  mode : CommitSplitMode
  maxSegments : ℕ
  minConfidence : ℚ
deriving DecidableEq, Repr

/-- `git_commit_split.rs`: `CommitSplitStats` (saturating `usize`
counters; saturation cannot occur in `ℕ`). -/
structure CommitSplitStats where
  commitsSeen : ℕ
  commitsSplit : ℕ
  totalSegmentsEmitted : ℕ
  fallbackToSingle : ℕ
  segmentsFromHeaders : ℕ
  segmentsFromBullets : ℕ
  segmentsFromParagraphs : ℕ
deriving DecidableEq, Repr

/-- `git_commit_split.rs`: `is_conventional_header`.  (Byte positions of
`str::find` are modelled as character positions; the predicate only
accepts ASCII prefixes, where the two coincide.) -/
def isConventionalHeader (line : Str) : Bool :=
  let trimmed := trimStr line
  if trimmed = [] then false
  else
    match trimmed.findIdx? (fun c => c = ':') with
    | none => false
    | some colonPos =>
      if colonPos = 0 ∨ trimmed.length ≤ colonPos + 1 then false
      else
        let pre := trimmed.take colonPos
        let message := trimStr (trimmed.drop (colonPos + 1))
        if message = [] then false
        else
          match pre.head? with
          | none => false
          | some first =>
            if !first.isAlpha then false
            else pre.all (fun c =>
              c.isAlphanum || c = '(' || c = ')' || c = '-' || c = '_' || c = '/')

/-- `git_commit_split.rs`: `split_by_conventional_headers`. -/
def splitByConventionalHeaders (lines : List Str) (maxSegments : ℕ) :
    Option (List CommitSegment) :=
  let headers := (lines.enum.filter (fun p => isConventionalHeader p.2)).map Prod.fst
  if headers.length < 2 then none
  else
    let segments := ((headers.zip (headers.tail ++ [lines.length])).take maxSegments).map
      (fun p =>
        { header := trimStr (lines.getD p.1 [])
          details := (((lines.take p.2).drop (p.1 + 1)).map trimStr).filter
            (fun l => l ≠ [])
          confidence := 95 / 100
          parseMode := ParseMode.conventionalHeader : CommitSegment })
    if 2 ≤ segments.length then some segments else none

/-- `git_commit_split.rs`: `is_bullet_line`. -/
def isBulletLine (line : Str) : Bool :=
  let trimmed := trimStr line
  3 ≤ trimmed.length &&
    (['-', ' '].isPrefixOf trimmed || ['*', ' '].isPrefixOf trimmed)

/-- `git_commit_split.rs`: `split_by_bullets`. -/
def splitByBullets (lines : List Str) (maxSegments : ℕ) :
    Option (List CommitSegment) :=
  let bullets := ((((lines.map trimStr).filter isBulletLine).map
    (fun l => trimStr (l.drop 2))).filter (fun l => 8 ≤ l.length))
  if bullets.length < 2 then none
  else
    let segments := (bullets.take maxSegments).map (fun b =>
      { header := b, details := [], confidence := 8 / 10,
        parseMode := ParseMode.bulletGrouped : CommitSegment })
    if 2 ≤ segments.length then some segments else none

/-- `str::split("\n\n")` (leftmost, non-overlapping). -/
def splitOnDoubleNl : Str → List Str
  | [] => [[]]
  | '\n' :: '\n' :: rest => [] :: splitOnDoubleNl rest
  | c :: rest =>
    match splitOnDoubleNl rest with
    | [] => [[c]]
    | piece :: pieces => (c :: piece) :: pieces

/-- `git_commit_split.rs`: `split_by_paragraphs`. -/
def splitByParagraphs (message : Str) (maxSegments : ℕ) :
    Option (List CommitSegment) :=
  let paras := ((splitOnDoubleNl message).map trimStr).filter (fun p => p ≠ [])
  if paras.length < 2 then none
  else
    let substantial :=
      (paras.filter (fun p => 4 ≤ (splitWhitespaceStr p).length)).length
    if substantial < 2 then none
    else
      let segments := (paras.take maxSegments).filterMap (fun para =>
        match ((linesOf para).map trimStr).filter (fun l => l ≠ []) with
        | [] => none
        | h :: t => some
          { header := h
            details := t
            confidence := 65 / 100
            parseMode := ParseMode.paragraphFallback : CommitSegment })
      if 2 ≤ segments.length then some segments else none

/-- The non-empty trimmed lines of a message — the iterator
`message.lines().map(str::trim).filter(|l| !l.is_empty())` that
`fallback_single_segment` consumes. -/
def nonEmptyTrimmedLines (message : Str) : List Str :=
  ((linesOf message).map trimStr).filter (fun l => l ≠ [])

/-- `git_commit_split.rs`: `fallback_single_segment` — one segment whose
header is the first non-empty trimmed line (the whole message, trimmed,
when there is none) and whose details are the remaining non-empty
trimmed lines. -/
def fallbackSingleSegment (message : Str) : List CommitSegment :=
  let ls := nonEmptyTrimmedLines message
  [{ header := trimStr (ls.headD message)
     details := ls.tail
     confidence := 1
     parseMode := ParseMode.paragraphFallback }]

/-- The per-parse-mode counter loop at the end of
`split_commit_message`. -/
def countParseModes (stats : CommitSplitStats) (segments : List CommitSegment) :
    CommitSplitStats :=
  segments.foldl
    (fun st seg =>
      match seg.parseMode with
      | ParseMode.conventionalHeader =>
        { st with segmentsFromHeaders := st.segmentsFromHeaders + 1 }
      | ParseMode.bulletGrouped =>
        { st with segmentsFromBullets := st.segmentsFromBullets + 1 }
      | ParseMode.paragraphFallback =>
        { st with segmentsFromParagraphs := st.segmentsFromParagraphs + 1 })
    stats

/-- `git_commit_split.rs`: `split_commit_message` (returns the segments
together with the updated statistics, modelling the `&mut` parameter). -/
def splitCommitMessage (message : Str) (config : CommitSplitConfig)
    (stats : CommitSplitStats) : List CommitSegment × CommitSplitStats :=
  let stats := { stats with commitsSeen := stats.commitsSeen + 1 }
  if config.mode = CommitSplitMode.off then
    (fallbackSingleSegment message,
     { stats with totalSegmentsEmitted := stats.totalSegmentsEmitted + 1
                  fallbackToSingle := stats.fallbackToSingle + 1 })
  else
    let lines := linesOf message
    let candidate := ((splitByConventionalHeaders lines config.maxSegments).orElse
      (fun _ => splitByBullets lines config.maxSegments)).orElse
      (fun _ => splitByParagraphs message config.maxSegments)
    match candidate with
    | none =>
      (fallbackSingleSegment message,
       { stats with totalSegmentsEmitted := stats.totalSegmentsEmitted + 1
                    fallbackToSingle := stats.fallbackToSingle + 1 })
    | some segments =>
      let avgConf := (segments.map (fun s => s.confidence)).sum / (segments.length : ℚ)
      let shouldKeepSplit :=
        match config.mode with
        | CommitSplitMode.strict => true
        | CommitSplitMode.auto => decide (config.minConfidence ≤ avgConf)
        | CommitSplitMode.off => false
      if !shouldKeepSplit then
        (fallbackSingleSegment message,
         { stats with totalSegmentsEmitted := stats.totalSegmentsEmitted + 1
                      fallbackToSingle := stats.fallbackToSingle + 1 })
      else
        let stats :=
          { stats with commitsSplit := stats.commitsSplit + 1
                       totalSegmentsEmitted :=
                         stats.totalSegmentsEmitted + segments.length }
        (segments, countParseModes stats segments)

end SpectralCortex

namespace SpectralCortex

/-! ## Auxiliary lemmas -/

theorem head?_dropWhile_not (p : Char → Bool) (l : Str) {a : Char}
    (h : (l.dropWhile p).head? = some a) : p a = false := by
  induction l with
  | nil => simp at h
  | cons x xs ih =>
    by_cases hx : p x
    · rw [List.dropWhile_cons_of_pos hx] at h
      exact ih h
    · rw [List.dropWhile_cons_of_neg hx] at h
      simp only [List.head?_cons, Option.some.injEq] at h
      rw [← h]
      exact Bool.of_not_eq_true hx

theorem dropWhile_eq_self_of_head (p : Char → Bool) (l : Str)
    (h : ∀ a, l.head? = some a → p a = false) : l.dropWhile p = l := by
  cases l with
  | nil => rfl
  | cons x xs =>
    have := h x rfl
    simp [List.dropWhile_cons, this]

/-- A string with no leading and no trailing whitespace is unchanged by
`trimStr`. -/
theorem trimStr_eq_self (l : Str)
    (h1 : ∀ a, l.head? = some a → wsChar a = false)
    (h2 : ∀ a, l.getLast? = some a → wsChar a = false) : trimStr l = l := by
  unfold trimStr
  rw [dropWhile_eq_self_of_head wsChar l h1]
  rw [dropWhile_eq_self_of_head wsChar l.reverse
    (fun a ha => h2 a (by rwa [List.head?_reverse] at ha))]
  exact List.reverse_reverse l

theorem trimStr_idem (s : Str) : trimStr (trimStr s) = trimStr s := by
  apply trimStr_eq_self
  · intro a ha
    simp only [trimStr, List.head?_reverse] at ha
    obtain ⟨pre, hpre⟩ := List.dropWhile_suffix (l := (s.dropWhile wsChar).reverse)
      (p := wsChar)
    have h2 : ((s.dropWhile wsChar).reverse).getLast? = some a := by
      rw [← hpre, List.getLast?_append, ha]
      rfl
    rw [List.getLast?_reverse] at h2
    exact head?_dropWhile_not wsChar s h2
  · intro a ha
    simp only [trimStr, List.getLast?_reverse] at ha
    exact head?_dropWhile_not wsChar (s.dropWhile wsChar).reverse ha

/-- Every element of `nonEmptyTrimmedLines` is already trimmed. -/
theorem mem_nonEmptyTrimmedLines_trimmed {message : Str} {l : Str}
    (h : l ∈ nonEmptyTrimmedLines message) : trimStr l = l := by
  simp only [nonEmptyTrimmedLines, List.mem_filter, List.mem_map] at h
  obtain ⟨⟨x, _, rfl⟩, _⟩ := h
  exact trimStr_idem x

end SpectralCortex

namespace SpectralCortex

/-! ## Claim C6 — split mode `Off` -/

/-- C6: `split_commit_message` in mode `Off` returns exactly one segment
for every input message, including the empty message (where the single
segment has an empty header); the segment's header is the first
non-empty trimmed line and its details are the remaining non-empty
trimmed lines. -/
theorem splitCommitMessage_off_single_segment (message : Str)
    (config : CommitSplitConfig) (stats : CommitSplitStats)
    (hmode : config.mode = CommitSplitMode.off) :
    (splitCommitMessage message config stats).1.length = 1 ∧
    ∀ seg ∈ (splitCommitMessage message config stats).1,
      seg.details = (nonEmptyTrimmedLines message).tail ∧
      (∀ h t, nonEmptyTrimmedLines message = h :: t →
        seg.header = h ∧ seg.details = t) ∧
      (message = [] → seg.header = []) := by
  have hsplit : (splitCommitMessage message config stats).1 =
      fallbackSingleSegment message := by
    simp [splitCommitMessage, hmode]
  rw [hsplit]
  refine ⟨rfl, ?_⟩
  intro seg hseg
  simp only [fallbackSingleSegment, List.mem_singleton] at hseg
  subst hseg
  refine ⟨rfl, ?_, ?_⟩
  · intro h t hht
    constructor
    · show trimStr ((nonEmptyTrimmedLines message).headD message) = h
      rw [hht, List.headD_cons]
      exact mem_nonEmptyTrimmedLines_trimmed (hht ▸ List.mem_cons_self h t)
    · show (nonEmptyTrimmedLines message).tail = t
      rw [hht, List.tail_cons]
  · intro hmsg
    subst hmsg
    rfl

/-- Witness for C6 at a concrete two-line message. -/
theorem splitCommitMessage_off_single_segment_witness :
    (splitCommitMessage [' ', 'a', '\n', 'b']
      { mode := CommitSplitMode.off, maxSegments := 6, minConfidence := 3 / 4 }
      { commitsSeen := 0, commitsSplit := 0, totalSegmentsEmitted := 0,
        fallbackToSingle := 0, segmentsFromHeaders := 0,
        segmentsFromBullets := 0, segmentsFromParagraphs := 0 }).1.length = 1 :=
  (splitCommitMessage_off_single_segment _ _ _ rfl).1

end SpectralCortex

namespace SpectralCortex

/-! ## Claim C9 — absent links and unknown ids -/

/-- C9: with `long_range_links` absent, `get_related_note_links` on a
note id that is not in the graph returns the empty list, and
`get_long_range_links` returns the empty list — no error, no panic. -/
theorem getLinks_absent_empty (g : Graph) (noteId : ℕ) (topK : Option ℕ)
    (hlinks : g.longRangeLinks = none) (hnote : g.findNote noteId = none) :
    g.getRelatedNoteLinks noteId topK = [] ∧ g.getLongRangeLinks topK = [] := by
  constructor
  · simp [Graph.getRelatedNoteLinks, hlinks, hnote]
  · simp [Graph.getLongRangeLinks, hlinks]

/-- Witness for C9 on the empty graph at id 7. -/
theorem getLinks_absent_empty_witness :
    Graph.new.getRelatedNoteLinks 7 (some 3) = [] ∧
    Graph.new.getLongRangeLinks (some 3) = [] :=
  getLinks_absent_empty Graph.new 7 (some 3) rfl rfl

end SpectralCortex

namespace SpectralCortex

/-! ## Claim C10 — zero divisors in temporal scoring -/

/-- C10: `compute_temporal_score` never divides by zero: for a candidate
with a timestamp, a configured `half_life_seconds` of 0 in `Exponential`
mode (or in the `Buckets` fallback) and a configured `window_seconds` of
0 in `LinearWindow` mode each yield a temporal score of exactly 0 — the
guards fire before the division (so no NaN/infinity can arise). -/
theorem computeTemporalScore_zero_divisor (expDecay : ℕ → ℕ → ℚ)
    (t nowSeconds : ℕ) (cfg : TemporalConfig) :
    (cfg.mode = TemporalMode.exponential → cfg.halfLifeSeconds = some 0 →
      computeTemporalScore expDecay (some t) nowSeconds cfg = 0) ∧
    (cfg.mode = TemporalMode.buckets → cfg.buckets = none →
      cfg.halfLifeSeconds = some 0 →
      computeTemporalScore expDecay (some t) nowSeconds cfg = 0) ∧
    (cfg.mode = TemporalMode.linearWindow → cfg.windowSeconds = some 0 →
      computeTemporalScore expDecay (some t) nowSeconds cfg = 0) := by
  refine ⟨?_, ?_, ?_⟩
  · intro hm h1
    simp [computeTemporalScore, hm, h1]
  · intro hm hb h1
    simp [computeTemporalScore, hm, hb, h1]
  · intro hm h1
    simp [computeTemporalScore, hm, h1]

/-- Witness for C10 at concrete configurations, one per mode. -/
theorem computeTemporalScore_zero_divisor_witness :
    computeTemporalScore (fun _ _ => 1 / 2) (some 5) 100
      { defaultTemporalConfig with halfLifeSeconds := some 0 } = 0 ∧
    computeTemporalScore (fun _ _ => 1 / 2) (some 5) 100
      { defaultTemporalConfig with mode := TemporalMode.buckets,
                                   halfLifeSeconds := some 0 } = 0 ∧
    computeTemporalScore (fun _ _ => 1 / 2) (some 5) 100
      { defaultTemporalConfig with mode := TemporalMode.linearWindow,
                                   windowSeconds := some 0 } = 0 :=
  ⟨(computeTemporalScore_zero_divisor (fun _ _ => 1 / 2) 5 100 _).1 rfl rfl,
   (computeTemporalScore_zero_divisor (fun _ _ => 1 / 2) 5 100 _).2.1 rfl rfl rfl,
   (computeTemporalScore_zero_divisor (fun _ _ => 1 / 2) 5 100 _).2.2 rfl rfl⟩

end SpectralCortex

namespace SpectralCortex

/-! ## Claim C7 — disabled temporal re-rank -/

theorem list_map_eq_self {α : Type} {f : α → α} {l : List α}
    (h : ∀ a ∈ l, f a = a) : l.map f = l := by
  induction l with
  | nil => rfl
  | cons x xs ih =>
    rw [List.map_cons, h x (List.mem_cons_self x xs),
      ih (fun a ha => h a (List.mem_cons_of_mem x ha))]

/-- The candidate enrichment of the disabled branch of
`re_rank_with_temporal` (named for use in the lemmas below). -/
def disabledRescore (c : Candidate) : CandidateWithScores :=
  { candidate := c, temporalScore := 0, finalScore := clampQ c.rawScore 0 1 }

/-- The disabled branch of `re_rank_with_temporal` in closed form. -/
theorem reRank_disabled_eq (expDecay : ℕ → ℕ → ℚ) (xs : List Candidate)
    (cfg : TemporalConfig) (nowOpt : Option ℕ) (sysNow : ℕ)
    (h : cfg.enabled = false) :
    reRankWithTemporal expDecay xs cfg nowOpt sysNow =
      (xs.map disabledRescore).insertionSort finalScoreLe := by
  simp only [reRankWithTemporal, h, Bool.false_eq_true, if_true, disabledRescore]
  rfl

/-- C7: with `enabled = false`, `re_rank_with_temporal` assigns
`temporal_score = 0` and `final_score = clamp(raw_score, 0, 1)` to every
candidate, and re-ranking the candidates of a disabled re-rank again
(with any oracle and any notion of "now") reproduces the same output —
the disabled re-rank is idempotent. -/
theorem reRank_disabled_idempotent (expDecay expDecay2 : ℕ → ℕ → ℚ)
    (xs : List Candidate) (cfg : TemporalConfig)
    (nowOpt nowOpt2 : Option ℕ) (sysNow sysNow2 : ℕ)
    (hcfg : cfg.enabled = false) :
    (∀ r ∈ reRankWithTemporal expDecay xs cfg nowOpt sysNow,
      r.temporalScore = 0 ∧ r.finalScore = clampQ r.candidate.rawScore 0 1) ∧
    reRankWithTemporal expDecay2
        ((reRankWithTemporal expDecay xs cfg nowOpt sysNow).map
          (fun r => r.candidate))
        cfg nowOpt2 sysNow2
      = reRankWithTemporal expDecay xs cfg nowOpt sysNow := by
  have heq := reRank_disabled_eq expDecay xs cfg nowOpt sysNow hcfg
  constructor
  · intro r hr
    rw [heq, List.mem_insertionSort] at hr
    obtain ⟨c, _, rfl⟩ := List.mem_map.mp hr
    exact ⟨rfl, rfl⟩
  · rw [reRank_disabled_eq expDecay2 _ cfg nowOpt2 sysNow2 hcfg, heq,
      List.map_map]
    have hmap : ((xs.map disabledRescore).insertionSort finalScoreLe).map
        (disabledRescore ∘ (fun r => r.candidate)) =
        (xs.map disabledRescore).insertionSort finalScoreLe := by
      apply list_map_eq_self
      intro y hy
      rw [List.mem_insertionSort] at hy
      obtain ⟨c, _, rfl⟩ := List.mem_map.mp hy
      rfl
    rw [hmap]
    exact List.Sorted.insertionSort_eq
      (List.sorted_insertionSort finalScoreLe _)

/-- Witness for C7 on a concrete two-candidate list (one raw score above
1 to exercise the clamp). -/
theorem reRank_disabled_idempotent_witness :
    (∀ r ∈ reRankWithTemporal (fun _ _ => 0)
        [{ turnId := 1, noteId := 1, rawScore := 3 / 2, timestamp := some 5 },
         { turnId := 2, noteId := 2, rawScore := 1 / 2, timestamp := none }]
        { defaultTemporalConfig with enabled := false } none 0,
      r.temporalScore = 0 ∧ r.finalScore = clampQ r.candidate.rawScore 0 1) ∧
    reRankWithTemporal (fun _ _ => 1)
        ((reRankWithTemporal (fun _ _ => 0)
          [{ turnId := 1, noteId := 1, rawScore := 3 / 2, timestamp := some 5 },
           { turnId := 2, noteId := 2, rawScore := 1 / 2, timestamp := none }]
          { defaultTemporalConfig with enabled := false } none 0).map
          (fun r => r.candidate))
        { defaultTemporalConfig with enabled := false } (some 9) 3
      = reRankWithTemporal (fun _ _ => 0)
        [{ turnId := 1, noteId := 1, rawScore := 3 / 2, timestamp := some 5 },
         { turnId := 2, noteId := 2, rawScore := 1 / 2, timestamp := none }]
        { defaultTemporalConfig with enabled := false } none 0 :=
  reRank_disabled_idempotent (fun _ _ => 0) (fun _ _ => 1) _ _ none (some 9) 0 3
    rfl

end SpectralCortex

namespace SpectralCortex

/-! ## Claim C4 — state after load -/

theorem loadNoteStep_nextId (g : Graph) (sn : SerializableNote) :
    (loadNoteStep g sn).nextId = max g.nextId (sn.noteId + 1) := by
  simp only [loadNoteStep]
  by_cases h : g.nextId ≤ sn.noteId
  · simp only [if_pos h]
    omega
  · simp only [if_neg h]
    omega

theorem loadFold_nextId (l : List SerializableNote) (g : Graph) :
    (l.foldl loadNoteStep g).nextId =
      l.foldl (fun acc sn => max acc (sn.noteId + 1)) g.nextId := by
  induction l generalizing g with
  | nil => rfl
  | cons sn rest ih =>
    rw [List.foldl_cons, List.foldl_cons, ih, loadNoteStep_nextId]

theorem foldMax_ge_acc (l : List SerializableNote) (acc : ℕ) :
    acc ≤ l.foldl (fun a x => max a (x.noteId + 1)) acc := by
  induction l generalizing acc with
  | nil => exact le_refl _
  | cons y ys ih =>
    rw [List.foldl_cons]
    exact le_trans (le_max_left _ _) (ih _)

theorem foldMax_ge_elem (l : List SerializableNote) (acc : ℕ) :
    ∀ sn ∈ l, sn.noteId + 1 ≤ l.foldl (fun a x => max a (x.noteId + 1)) acc := by
  induction l generalizing acc with
  | nil => intro sn h; cases h
  | cons x rest ih =>
    intro sn h
    rcases List.mem_cons.mp h with h | h
    · subst h
      rw [List.foldl_cons]
      exact le_trans (le_max_right _ _) (foldMax_ge_acc _ _)
    · exact ih _ sn h

theorem foldMax_le (l : List SerializableNote) (acc B : ℕ)
    (hacc : acc ≤ B) (hl : ∀ sn ∈ l, sn.noteId + 1 ≤ B) :
    l.foldl (fun a x => max a (x.noteId + 1)) acc ≤ B := by
  induction l generalizing acc with
  | nil => exact hacc
  | cons x rest ih =>
    rw [List.foldl_cons]
    exact ih _ (max_le hacc (hl x (List.mem_cons_self x rest)))
      (fun sn h => hl sn (List.mem_cons_of_mem x h))

/-- C4: after a successful load of a snapshot with at least one note,
`next_id` equals the maximum restored `note_id` plus 1, and both
`similarity_matrix` and `spectral_embeddings` are `None`. -/
theorem loadSmg_nextId_max (serial : SerializableSMG) (m : ℕ)
    (hmax : (serial.notes.map (fun sn => sn.noteId)).max? = some m) :
    (loadSmg serial).nextId = m + 1 ∧
    (loadSmg serial).similarityMatrix = none ∧
    (loadSmg serial).spectralEmbeddings = none := by
  refine ⟨?_, rfl, rfl⟩
  haveI : Std.Antisymm ((· : ℕ) ≤ ·) := ⟨fun h h' => Nat.le_antisymm h h'⟩
  have hm := (List.max?_eq_some_iff (fun a => le_refl a)
    (fun a b => max_choice a b) (fun _ _ _ => max_le_iff)).mp hmax
  obtain ⟨hmem, hub⟩ := hm
  obtain ⟨sn0, hsn0, hsn0id⟩ := List.mem_map.mp hmem
  have hnext : (loadSmg serial).nextId =
      serial.notes.foldl (fun acc sn => max acc (sn.noteId + 1)) 0 := by
    show (serial.notes.foldl loadNoteStep Graph.new).nextId = _
    rw [loadFold_nextId]
    rfl
  rw [hnext]
  apply le_antisymm
  · apply foldMax_le _ _ _ (Nat.zero_le _)
    intro sn hsn
    have := hub (sn.noteId) (List.mem_map_of_mem (fun x => x.noteId) hsn)
    omega
  · have := foldMax_ge_elem serial.notes 0 sn0 hsn0
    omega

/-- Witness for C4: a snapshot with notes 3 and 1 loads with
`next_id = 4` and empty caches. -/
theorem loadSmg_nextId_max_witness :
    (loadSmg
      { metadata := []
        notes :=
          [{ noteId := 3, rawContent := [], context := [], embedding := [1],
             norm := 1, sourceTurnIds := [9], sourceCommitIds := none,
             sourceTimestamps := some [50], relatedNoteIds := [] },
           { noteId := 1, rawContent := [], context := [], embedding := [1],
             norm := 1, sourceTurnIds := [8], sourceCommitIds := none,
             sourceTimestamps := none, relatedNoteIds := [] }]
        clusterLabels := none
        clusterCentroids := none
        clusterCentroidNorms := none
        longRangeLinks := none }).nextId = 4 :=
  (loadSmg_nextId_max _ 3 (by decide)).1

end SpectralCortex

namespace SpectralCortex

/-! ## Claim C8 — note-map key invariant -/

/-- The implicit invariant of the notes map: every stored note carries
its own key as `note_id`, and every key is below the allocator
`next_id`. -/
def NotesInvariant (g : Graph) : Prop :=
  ∀ p ∈ g.notes, p.2.noteId = p.1 ∧ p.1 < g.nextId

theorem mem_insertAssoc {β : Type} {l : List (ℕ × β)} {k : ℕ} {v : β}
    {p : ℕ × β} (h : p ∈ insertAssoc l k v) : p ∈ l ∨ p = (k, v) := by
  simp only [insertAssoc, List.mem_append, List.mem_filter,
    List.mem_singleton] at h
  rcases h with h | h
  · exact Or.inl h.1
  · exact Or.inr h

/-- Inserting a freshly allocated note at `next_id` and bumping the
allocator preserves the invariant (the common step of `ingest_turn`,
the batch loop and nothing else). -/
theorem notesInvariant_alloc_step (g : Graph) (note : Note)
    (hinv : NotesInvariant g) (hid : note.noteId = g.nextId) :
    NotesInvariant
      { g with notes := insertAssoc g.notes g.nextId note
               nextId := g.nextId + 1 } := by
  intro p hp
  rcases mem_insertAssoc hp with h | h
  · obtain ⟨h1, h2⟩ := hinv p h
    exact ⟨h1, Nat.lt_succ_of_lt h2⟩
  · subst h
    exact ⟨hid, Nat.lt_succ_self _⟩

theorem notesInvariant_batchStep (sqrtO : ℚ → ℚ) (g : Graph)
    (p : ConversationTurn × Vec) (hinv : NotesInvariant g) :
    NotesInvariant (ingestBatchStep sqrtO g p) :=
  notesInvariant_alloc_step g _ hinv rfl

theorem notesInvariant_batchFold (sqrtO : ℚ → ℚ)
    (l : List (ConversationTurn × Vec)) (g : Graph)
    (hinv : NotesInvariant g) :
    NotesInvariant (l.foldl (ingestBatchStep sqrtO) g) := by
  induction l generalizing g with
  | nil => exact hinv
  | cons x rest ih =>
    rw [List.foldl_cons]
    exact ih _ (notesInvariant_batchStep sqrtO g x hinv)

theorem notesInvariant_loadStep (g : Graph) (sn : SerializableNote)
    (hinv : NotesInvariant g) : NotesInvariant (loadNoteStep g sn) := by
  intro p hp
  have hnext : (loadNoteStep g sn).nextId = max g.nextId (sn.noteId + 1) :=
    loadNoteStep_nextId g sn
  have hp2 : p ∈ insertAssoc g.notes sn.noteId
      { noteId := sn.noteId, rawContent := sn.rawContent,
        context := sn.context, embedding := sn.embedding, norm := sn.norm,
        sourceTurnIds := sn.sourceTurnIds,
        sourceCommitIds := sn.sourceCommitIds.getD [],
        sourceTimestamps := sn.sourceTimestamps.getD [],
        spectralCoords := none, relatedNoteIds := sn.relatedNoteIds } := hp
  rcases mem_insertAssoc hp2 with h | h
  · obtain ⟨h1, h2⟩ := hinv p h
    refine ⟨h1, ?_⟩
    rw [hnext]
    omega
  · subst h
    refine ⟨rfl, ?_⟩
    rw [hnext]
    omega

/-- C8: every note-adding operation — `ingest_turn`,
`ingest_turns_batch` and `load_smg_json` — preserves (respectively
establishes) the invariant that each key of the notes map stores a note
with matching `note_id` and lies strictly below `next_id`. -/
theorem noteOps_preserve_invariant (embedOne : Str → Option Vec)
    (embedBatch : List Str → Option (List Vec)) (sqrtO : ℚ → ℚ)
    (g g1 g2 : Graph) (turn : ConversationTurn)
    (turns : List ConversationTurn) (serial : SerializableSMG)
    (hinv : NotesInvariant g)
    (h1 : g.ingestTurn embedOne sqrtO turn = some g1)
    (h2 : g.ingestTurnsBatch embedBatch sqrtO turns = some g2) :
    NotesInvariant g1 ∧ NotesInvariant g2 ∧ NotesInvariant (loadSmg serial) := by
  refine ⟨?_, ?_, ?_⟩
  · simp only [Graph.ingestTurn] at h1
    cases hemb : embedOne turn.content with
    | none => rw [hemb] at h1; cases h1
    | some emb =>
      rw [hemb] at h1
      simp only [Option.some.injEq] at h1
      subst h1
      exact notesInvariant_alloc_step g _ hinv rfl
  · simp only [Graph.ingestTurnsBatch] at h2
    by_cases hturns : turns = []
    · rw [if_pos hturns] at h2
      simp only [Option.some.injEq] at h2
      subst h2
      exact hinv
    · rw [if_neg hturns] at h2
      cases hemb : embedBatch (turns.map (fun t => t.content)) with
      | none => rw [hemb] at h2; cases h2
      | some embeddings =>
        rw [hemb] at h2
        simp only [Option.some.injEq] at h2
        subst h2
        exact notesInvariant_batchFold sqrtO _ g hinv
  · show NotesInvariant (loadSmg serial)
    have hfold : NotesInvariant (serial.notes.foldl loadNoteStep Graph.new) := by
      have : NotesInvariant Graph.new := by
        intro p hp
        cases hp
      generalize Graph.new = g0 at this ⊢
      induction serial.notes generalizing g0 with
      | nil => exact this
      | cons sn rest ih =>
        rw [List.foldl_cons]
        exact ih _ (notesInvariant_loadStep g0 sn this)
    intro p hp
    obtain ⟨h1, h2⟩ := hfold p hp
    exact ⟨h1, h2⟩

/-- Witness for C8: ingest one turn and a two-turn batch into the empty
graph, and load a one-note snapshot. -/
theorem noteOps_preserve_invariant_witness :
    ∃ g1 g2, Graph.new.ingestTurn (fun _ => some [1]) (fun q => q)
        { turnId := 1, speaker := [], content := ['a'], topic := [],
          entities := [], commitId := none, timestamp := 7 } = some g1 ∧
      Graph.new.ingestTurnsBatch (fun ts => some (ts.map (fun _ => [1])))
        (fun q => q)
        [{ turnId := 1, speaker := [], content := ['a'], topic := [],
           entities := [], commitId := none, timestamp := 7 },
         { turnId := 2, speaker := [], content := ['b'], topic := [],
           entities := [], commitId := none, timestamp := 8 }] = some g2 ∧
      NotesInvariant g1 ∧ NotesInvariant g2 ∧
      NotesInvariant (loadSmg
        { metadata := [], notes :=
            [{ noteId := 3, rawContent := [], context := [], embedding := [1],
               norm := 1, sourceTurnIds := [9], sourceCommitIds := none,
               sourceTimestamps := some [50], relatedNoteIds := [] }],
          clusterLabels := none, clusterCentroids := none,
          clusterCentroidNorms := none, longRangeLinks := none }) := by
  refine ⟨_, _, rfl, rfl, ?_⟩
  have h := noteOps_preserve_invariant (fun _ => some [1])
    (fun ts => some (ts.map (fun _ => [1]))) (fun q => q) Graph.new _ _
    { turnId := 1, speaker := [], content := ['a'], topic := [],
      entities := [], commitId := none, timestamp := 7 }
    [{ turnId := 1, speaker := [], content := ['a'], topic := [],
       entities := [], commitId := none, timestamp := 7 },
     { turnId := 2, speaker := [], content := ['b'], topic := [],
       entities := [], commitId := none, timestamp := 8 }]
    { metadata := [], notes :=
        [{ noteId := 3, rawContent := [], context := [], embedding := [1],
           norm := 1, sourceTurnIds := [9], sourceCommitIds := none,
           sourceTimestamps := some [50], relatedNoteIds := [] }],
      clusterLabels := none, clusterCentroids := none,
      clusterCentroidNorms := none, longRangeLinks := none }
    (fun p hp => absurd hp (List.not_mem_nil p)) rfl rfl
  exact h

end SpectralCortex

namespace SpectralCortex

/-! ## Claim C3 — time-filtered retrieval -/

/-- `iter().min().unwrap()` on a non-empty timestamp list (0 for the
empty list, which the source never reaches). -/
def listMinD : List ℕ → ℕ
  | [] => 0
  | t :: rest => rest.foldl Nat.min t

/-- `iter().max().unwrap()` on a non-empty timestamp list. -/
def listMaxD : List ℕ → ℕ
  | [] => 0
  | t :: rest => rest.foldl Nat.max t

theorem lookup_mem {β : Type} {l : List (ℕ × β)} {k : ℕ} {v : β}
    (h : l.lookup k = some v) : (k, v) ∈ l := by
  induction l with
  | nil => simp [List.lookup] at h
  | cons p rest ih =>
    obtain ⟨k', v'⟩ := p
    by_cases hk : k = k'
    · subst hk
      simp only [List.lookup, beq_self_eq_true, Option.some.injEq] at h
      subst h
      exact List.mem_cons_self _ _
    · simp only [List.lookup, beq_false_of_ne hk] at h
      exact List.mem_cons_of_mem _ (ih h)

/-- The filter predicate, negated: a note is dropped exactly when it has
no timestamps, or its newest timestamp predates `time_start`, or its
oldest postdates `time_end`. -/
theorem keepNote_false_iff (note : Note) (ts te : Option ℕ) :
    keepNote note ts te = false ↔
      note.sourceTimestamps = [] ∨
      (∃ s, ts = some s ∧ listMaxD note.sourceTimestamps < s) ∨
      (∃ e, te = some e ∧ e < listMinD note.sourceTimestamps) := by
  rcases hts : note.sourceTimestamps with _ | ⟨t, rest⟩
  · simp [keepNote, hts]
  · cases ts <;> cases te
    all_goals simp +decide [keepNote, hts, listMinD, listMaxD]
    all_goals omega

/-- C3: when `retrieve_with_scores_config_filtered` is given at least
one time bound, a note is excluded from the candidate pool exactly when
its `source_timestamps` is empty, or `max(source_timestamps) <
time_start`, or `min(source_timestamps) > time_end`; without bounds the
call delegates to the unfiltered path; and when no note survives the
filter the result is the empty list. -/
theorem retrieveFiltered_time_filter (embedOne : Str → Option Vec)
    (sqrtO : ℚ → ℚ) (expDecay : ℕ → ℕ → ℚ) (g : Graph) (query : Str)
    (topK : ℕ) (cfgOpt : Option TemporalConfig)
    (timeStart timeEnd : Option ℕ) (sysNow : ℕ) :
    ((timeStart ≠ none ∨ timeEnd ≠ none) →
      ∀ nid note, (g.notes.map Prod.fst).Nodup →
        g.notes.lookup nid = some note →
        (nid ∉ filteredNoteIdsOf g timeStart timeEnd ↔
          note.sourceTimestamps = [] ∨
          (∃ s, timeStart = some s ∧ listMaxD note.sourceTimestamps < s) ∨
          (∃ e, timeEnd = some e ∧ e < listMinD note.sourceTimestamps))) ∧
    (timeStart = none → timeEnd = none →
      g.retrieveWithScoresConfigFiltered embedOne sqrtO expDecay query topK
          cfgOpt timeStart timeEnd sysNow =
        g.retrieveWithScoresConfig embedOne sqrtO expDecay query topK cfgOpt
          sysNow) ∧
    ((timeStart ≠ none ∨ timeEnd ≠ none) →
      filteredNoteIdsOf g timeStart timeEnd = [] →
      g.retrieveWithScoresConfigFiltered embedOne sqrtO expDecay query topK
          cfgOpt timeStart timeEnd sysNow = some []) := by
  refine ⟨?_, ?_, ?_⟩
  · intro _ nid note hnd hlk
    have hmem : (nid, note) ∈ g.notes := lookup_mem hlk
    have hiff : nid ∈ filteredNoteIdsOf g timeStart timeEnd ↔
        keepNote note timeStart timeEnd = true := by
      constructor
      · intro h
        simp only [filteredNoteIdsOf, List.mem_map] at h
        obtain ⟨p, hp, hpe⟩ := h
        rw [List.mem_filter] at hp
        have hl2 : g.notes.lookup p.1 = some p.2 :=
          (lookup_eq_some_iff g.notes p.1 p.2 hnd).mpr hp.1
        rw [hpe, hlk] at hl2
        have hpn : p.2 = note := by
          exact (Option.some.injEq _ _).mp hl2.symm
        rw [← hpn]
        exact hp.2
      · intro h
        simp only [filteredNoteIdsOf, List.mem_map]
        exact ⟨(nid, note), List.mem_filter.mpr ⟨hmem, h⟩, rfl⟩
    rw [hiff, Bool.not_eq_true]
    exact keepNote_false_iff note timeStart timeEnd
  · intro h1 h2
    subst h1 h2
    simp [Graph.retrieveWithScoresConfigFiltered]
  · intro hb hempty
    have hcond : ¬(timeStart = none ∧ timeEnd = none) := by tauto
    simp only [Graph.retrieveWithScoresConfigFiltered, if_neg hcond, hempty]
    simp

/-- Note 1 of the C3 witness graph: a single timestamp 100. -/
def noteC3 : Note :=
  { noteId := 1
    rawContent := []
    context := []
    embedding := [1]
    norm := 1
    sourceTurnIds := [4]
    sourceCommitIds := [none]
    sourceTimestamps := [100]
    spectralCoords := none
    relatedNoteIds := [] }

/-- Concrete graph for the C3 witness: note 0 has no timestamps, note 1
has a single timestamp 100. -/
def gC3 : Graph :=
  { Graph.new with
    notes := [(0, { emptyNote with noteId := 0 }), (1, noteC3)]
    nextId := 2 }

/-- Witness for C3 at `time_start = 200`: note 1 (whose newest timestamp
is 100) is excluded, the whole pool dies, and the result is `some []`. -/
theorem retrieveFiltered_time_filter_witness :
    (1 ∉ filteredNoteIdsOf gC3 (some 200) none) ∧
    gC3.retrieveWithScoresConfigFiltered (fun _ => some [1]) (fun q => q)
      (fun _ _ => 0) ['q'] 5 none (some 200) none 0 = some [] := by
  constructor
  · exact ((retrieveFiltered_time_filter (fun _ => some [1]) (fun q => q)
      (fun _ _ => 0) gC3 ['q'] 5 none (some 200) none 0).1
      (Or.inl (by decide)) 1 noteC3
      (by decide) (by decide)).mpr
      (Or.inr (Or.inl ⟨200, rfl, by decide⟩))
  · exact (retrieveFiltered_time_filter (fun _ => some [1]) (fun q => q)
      (fun _ _ => 0) gC3 ['q'] 5 none (some 200) none 0).2.2
      (Or.inl (by decide)) (by decide)

end SpectralCortex

namespace SpectralCortex

/-! ## Claim C2 — score bounds of retrieval -/

theorem dotList_self_eq_sumSq (v : Vec) : dotList v v = sumSq v := by
  simp only [dotList, sumSq, List.zipWith_same]

/-- The per-note cosine of `retrieve_candidates` lies in `[-1, 1]` when
the stored norm is the true norm of the embedding and `normQ` is the
true norm of the query. -/
theorem rawSimOf_bounds (qe : Vec) (normQ : ℚ) (note : Note)
    (hn0 : 0 ≤ note.norm) (hn1 : note.norm ^ 2 = sumSq note.embedding)
    (hq0 : 0 ≤ normQ) (hq1 : normQ ^ 2 = sumSq qe) :
    -1 ≤ rawSimOf qe normQ note ∧ rawSimOf qe normQ note ≤ 1 := by
  unfold rawSimOf
  by_cases h : note.norm = 0 ∨ normQ = 0
  · rw [if_pos h]
    norm_num
  · rw [if_neg h]
    push_neg at h
    have hnpos : 0 < note.norm := lt_of_le_of_ne hn0 (Ne.symm h.1)
    have hqpos : 0 < normQ := lt_of_le_of_ne hq0 (Ne.symm h.2)
    have hP : 0 < note.norm * normQ := mul_pos hnpos hqpos
    have hsq : dotList note.embedding qe ^ 2 ≤ (note.norm * normQ) ^ 2 := by
      rw [mul_pow, hn1, hq1]
      exact dotList_sq_le note.embedding qe
    obtain ⟨hlo, hhi⟩ := abs_le_of_sq_le_sq' hsq (le_of_lt hP)
    constructor
    · rw [le_div_iff₀ hP]
      linarith
    · rw [div_le_one hP]
      exact hhi

theorem rawSim_noteAt_bounds (g : Graph) (qe : Vec) (normQ : ℚ) (nid : ℕ)
    (hnorm : ∀ p ∈ g.notes, 0 ≤ p.2.norm ∧ p.2.norm ^ 2 = sumSq p.2.embedding)
    (hq0 : 0 ≤ normQ) (hq1 : normQ ^ 2 = sumSq qe) :
    -1 ≤ rawSimOf qe normQ (noteAt g nid) ∧
      rawSimOf qe normQ (noteAt g nid) ≤ 1 := by
  unfold noteAt
  cases hlk : g.notes.lookup nid with
  | some note =>
    have hn := hnorm (nid, note) (lookup_mem hlk)
    exact rawSimOf_bounds qe normQ note hn.1 hn.2 hq0 hq1
  | none =>
    simp only [Option.getD_none]
    rw [show rawSimOf qe normQ emptyNote = 0 by simp [rawSimOf, emptyNote]]
    norm_num

theorem boostScores_bounds (labels topClusters : List ℕ)
    (scores : List (ℕ × ℚ)) (h : ∀ y ∈ scores, -1 ≤ y.2 ∧ y.2 ≤ 1) :
    ∀ x ∈ boostScores labels topClusters scores,
      -(6 / 5 : ℚ) ≤ x.2 ∧ x.2 ≤ 6 / 5 := by
  intro x hx
  simp only [boostScores, List.mem_map] at hx
  obtain ⟨⟨i, p⟩, hip, rfl⟩ := hx
  have hmem : p ∈ scores := by
    obtain ⟨hlt, hpe⟩ := List.mem_enum hip
    rw [hpe]
    exact List.getElem_mem hlt
  have hb := h p hmem
  cases labels.get? i with
  | none =>
    simp only []
    constructor <;> [linarith [hb.1]; linarith [hb.2]]
  | some lbl =>
    simp only []
    by_cases hc : topClusters.contains lbl
    · rw [if_pos hc]
      constructor <;> nlinarith [hb.1, hb.2]
    · rw [if_neg hc]
      constructor <;> [linarith [hb.1]; linarith [hb.2]]

/-- The raw score of every candidate produced by the common scoring body
lies in `[-1.2, 1.2]` (with the cluster boost as the only way past
`[-1, 1]`). -/
theorem retrieveCandidatesOn_raw_bounds (sqrtO : ℚ → ℚ) (g : Graph)
    (qe : Vec) (k : ℕ) (ids : List ℕ)
    (hnorm : ∀ p ∈ g.notes, 0 ≤ p.2.norm ∧ p.2.norm ^ 2 = sumSq p.2.embedding)
    (hsq0 : 0 ≤ sqrtO (dotList qe qe))
    (hsq1 : sqrtO (dotList qe qe) ^ 2 = dotList qe qe) :
    ∀ c ∈ retrieveCandidatesOn sqrtO g qe k ids,
      -(6 / 5 : ℚ) ≤ c.rawScore ∧ c.rawScore ≤ 6 / 5 := by
  intro c hc
  have hq1 : sqrtO (dotList qe qe) ^ 2 = sumSq qe := by
    rw [hsq1, dotList_self_eq_sumSq]
  have hscores : ∀ y ∈ ids.enum.map
      (fun p => (p.1, rawSimOf qe (sqrtO (dotList qe qe)) (noteAt g p.2))),
      -1 ≤ y.2 ∧ y.2 ≤ 1 := by
    intro y hy
    obtain ⟨p, _, rfl⟩ := List.mem_map.mp hy
    exact rawSim_noteAt_bounds g qe _ p.2 hnorm hsq0 hq1
  simp only [retrieveCandidatesOn, List.mem_flatMap] at hc
  obtain ⟨p, hp, hcp⟩ := hc
  have hp2 := (List.mem_insertionSort scoreLe).mp ((List.take_sublist k _).subset hp)
  have hpbound : -(6 / 5 : ℚ) ≤ p.2 ∧ p.2 ≤ 6 / 5 := by
    split at hp2
    · exact boostScores_bounds _ _ _ hscores p hp2
    · have := hscores p hp2
      constructor
      · linarith [this.1]
      · linarith [this.2]
  cases hlk : g.notes.lookup (ids.getD p.1 0) with
  | some note =>
    rw [hlk] at hcp
    simp only [List.mem_map] at hcp
    obtain ⟨q, _, rfl⟩ := hcp
    exact hpbound
  | none =>
    rw [hlk] at hcp
    cases hcp

/-- Every final score assigned by `re_rank_with_temporal` is clamped
into `[0, 1]`, in both the enabled and the disabled branch. -/
theorem reRank_final_bounds (expDecay : ℕ → ℕ → ℚ) (xs : List Candidate)
    (cfg : TemporalConfig) (nowOpt : Option ℕ) (sysNow : ℕ) :
    ∀ r ∈ reRankWithTemporal expDecay xs cfg nowOpt sysNow,
      0 ≤ r.finalScore ∧ r.finalScore ≤ 1 := by
  intro r hr
  by_cases h : cfg.enabled = false
  · rw [reRank_disabled_eq expDecay xs cfg nowOpt sysNow h,
      List.mem_insertionSort] at hr
    obtain ⟨c, _, rfl⟩ := List.mem_map.mp hr
    exact clampQ_mem _ (by norm_num)
  · simp only [reRankWithTemporal, if_neg h, List.mem_insertionSort] at hr
    obtain ⟨c, _, rfl⟩ := List.mem_map.mp hr
    exact clampQ_mem _ (by norm_num)

/-- C2 (amended): for every query whose embedding the embedder returns,
every `Candidate` produced by `retrieve_candidates` has
`raw_score ∈ [-1.2, 1.2]` — the cosine can be negative, and the cluster
boost is the only way past `[-1, 1]` — and after temporal re-ranking
every `final_score` lies in `[0, 1]`.  The norm hypotheses state the
note invariant `norm = ‖embedding‖` and that `sqrtO` behaves as a square
root on the query norm. -/
theorem retrieveCandidates_score_bounds (embedOne : Str → Option Vec)
    (sqrtO : ℚ → ℚ) (expDecay : ℕ → ℕ → ℚ) (g : Graph) (query : Str)
    (qe : Vec) (candidateK : ℕ) (cfg : TemporalConfig)
    (nowOpt : Option ℕ) (sysNow : ℕ) (cands : List Candidate)
    (hq : embedOne query = some qe)
    (hnorm : ∀ p ∈ g.notes, 0 ≤ p.2.norm ∧ p.2.norm ^ 2 = sumSq p.2.embedding)
    (hsq0 : 0 ≤ sqrtO (dotList qe qe))
    (hsq1 : sqrtO (dotList qe qe) ^ 2 = dotList qe qe)
    (hc : g.retrieveCandidates embedOne sqrtO query candidateK = some cands) :
    (∀ c ∈ cands, -(6 / 5 : ℚ) ≤ c.rawScore ∧ c.rawScore ≤ 6 / 5) ∧
    (∀ r ∈ reRankWithTemporal expDecay cands cfg nowOpt sysNow,
      0 ≤ r.finalScore ∧ r.finalScore ≤ 1) := by
  have hcands : cands = retrieveCandidatesOn sqrtO g qe candidateK (noteIdsOf g) := by
    simp only [Graph.retrieveCandidates, hq, Option.map_some'] at hc
    exact (Option.some.injEq _ _).mp hc.symm
  subst hcands
  exact ⟨retrieveCandidatesOn_raw_bounds sqrtO g qe candidateK (noteIdsOf g)
      hnorm hsq0 hsq1,
    reRank_final_bounds expDecay _ cfg nowOpt sysNow⟩

/-- The single note of the C2 graphs: embedding `[1]`, true norm 1. -/
def noteC2 : Note :=
  { noteId := 0
    rawContent := []
    context := []
    embedding := [1]
    norm := 1
    sourceTurnIds := [5]
    sourceCommitIds := [none]
    sourceTimestamps := [100]
    spectralCoords := none
    relatedNoteIds := [] }

/-- One-note graph used by the C2 counterexample and witness. -/
def gC2 : Graph := { Graph.new with notes := [(0, noteC2)], nextId := 1 }

/-- Square-root oracle for the C2 inputs (exact on the only value it is
asked for, `1`). -/
def sqrtC2 : ℚ → ℚ := fun q => if q = 1 then 1 else 0

/-- Embedder returning `[-1]` for every query — an embedding anti-aligned
with the stored note. -/
def embedC2 : Str → Option Vec := fun _ => some [-1]

/-- C2 counterexample: as stated the claim is false — with query
embedding `[-1]` against the stored embedding `[1]` the produced
candidate has `raw_score = -1 ∉ [0, 1.2]` (the code never clamps the
cosine, which is negative for anti-aligned vectors). -/
theorem retrieveCandidates_rawScore_negative :
    ∃ cs, gC2.retrieveCandidates embedC2 sqrtC2 ['q'] 1 = some cs ∧
      ∃ c ∈ cs, ¬(0 ≤ c.rawScore ∧ c.rawScore ≤ 6 / 5) := by
  refine ⟨[{ turnId := 5, noteId := 0, rawScore := -1, timestamp := some 100 }],
    ?_, ?_⟩
  · norm_num [Graph.retrieveCandidates, embedC2, retrieveCandidatesOn, gC2,
      noteC2, sqrtC2, noteIdsOf, rawSimOf, noteAt, dotList, sumSq, Graph.new,
      List.insertionSort, List.orderedInsert, scoreLe, List.lookup, List.enum,
      List.enumFrom, List.flatMap]
  · refine ⟨_, List.mem_singleton_self _, ?_⟩
    norm_num

/-- Embedder returning `[1]` (aligned with the stored note), for the C2
witness. -/
def embedC2pos : Str → Option Vec := fun _ => some [1]

/-- Witness for the amended C2 on the aligned query. -/
theorem retrieveCandidates_score_bounds_witness :
    (∀ c ∈ retrieveCandidatesOn sqrtC2 gC2 [1] 1 (noteIdsOf gC2),
      -(6 / 5 : ℚ) ≤ c.rawScore ∧ c.rawScore ≤ 6 / 5) ∧
    (∀ r ∈ reRankWithTemporal (fun _ _ => 0)
        (retrieveCandidatesOn sqrtC2 gC2 [1] 1 (noteIdsOf gC2))
        defaultTemporalConfig none 7,
      0 ≤ r.finalScore ∧ r.finalScore ≤ 1) :=
  retrieveCandidates_score_bounds embedC2pos sqrtC2 (fun _ _ => 0) gC2 ['q']
    [1] 1 defaultTemporalConfig none 7 _ rfl
    (by intro p hp
        simp only [gC2, Graph.new, List.mem_singleton] at hp
        subst hp
        norm_num [noteC2, sumSq])
    (by norm_num [sqrtC2, dotList])
    (by norm_num [sqrtC2, dotList]) rfl

end SpectralCortex

namespace SpectralCortex

/-! ## Claim C5 — eigengap cluster count -/

/-- Modelled from the spec's wording for comparison with the code
(`claimedClusterCount`): the consecutive eigenvalue gaps
`λ_i − λ_{i-1}` for `i ∈ [1, n)`, paired with their indices. -/
def claimedGaps (n : ℕ) (vals : List ℚ) : List (ℕ × ℚ) :=
  (List.range' 1 (n - 1)).map (fun i => (i, vals.getD i 0 - vals.getD (i - 1) 0))

/-- Modelled from the spec's wording: the index of the largest gap — the
first index attaining the maximum. -/
def firstArgmax : List (ℕ × ℚ) → ℕ
  | [] => 1
  | g0 :: rest => (rest.foldl (fun b p => if b.2 < p.2 then p else b) g0).1

/-- Modelled from the spec's wording of step 7: "scan consecutive
differences `λ_i − λ_{i-1}` for `i ∈ [1, n)`; pick the index of the
largest gap as `k*`; clamp into `[K_MIN=2, K_MAX=12]`; further clamp to
`n`". -/
def claimedClusterCount (n : ℕ) (vals : List ℚ) : ℕ :=
  min (min (max (firstArgmax (claimedGaps n vals)) 2) 12) n

theorem foldl_gap_map (vals : List ℚ) (idxs : List ℕ) (b : ℕ × ℚ) :
    idxs.foldl (fun b i =>
        if b.2 < vals.getD i 0 - vals.getD (i - 1) 0 then
          (i, vals.getD i 0 - vals.getD (i - 1) 0)
        else b) b
      = (idxs.map (fun i => (i, vals.getD i 0 - vals.getD (i - 1) 0))).foldl
          (fun b p => if b.2 < p.2 then p else b) b := by
  induction idxs generalizing b with
  | nil => rfl
  | cons i rest ih =>
    simp only [List.foldl_cons, List.map_cons]
    exact ih _

/-- The cluster count of the build equals the spec's eigengap formula,
whenever the eigenvalue sequence is ascending and has one value per note
(`n`), as the spec's scan bound `[1, n)` presumes. -/
theorem nClustersFrom_eq_claimed (vals : List ℚ) (n : ℕ) (hn : 3 ≤ n)
    (hlen : vals.length = n) (hasc : vals.Chain' (· ≤ ·)) :
    nClustersFrom vals n = claimedClusterCount n vals := by
  have hn2 : ¬ n ≤ 2 := by omega
  have hrange : List.range' 1 (n - 1) = 1 :: List.range' 2 (n - 2) := by
    have h : n - 1 = (n - 2) + 1 := by omega
    rw [h, List.range'_succ]
  have hgap1 : 0 ≤ vals.getD 1 0 - vals.getD 0 0 := by
    have h0 : 0 < vals.length := by omega
    have h1 : 1 < vals.length := by omega
    rw [List.getD_eq_getElem vals 0 h1, List.getD_eq_getElem vals 0 h0]
    have hch := List.chain'_iff_get.mp hasc 0 (by omega)
    simp only [List.get_eq_getElem] at hch
    linarith
  have hstep : (if ((1, (0:ℚ)) : ℕ × ℚ).2 < vals.getD 1 0 - vals.getD (1 - 1) 0
      then (1, vals.getD 1 0 - vals.getD (1 - 1) 0) else (1, (0:ℚ)))
      = (1, vals.getD 1 0 - vals.getD (1 - 1) 0) := by
    by_cases h : ((1, (0:ℚ)) : ℕ × ℚ).2 < vals.getD 1 0 - vals.getD (1 - 1) 0
    · rw [if_pos h]
    · rw [if_neg h]
      have hz : vals.getD 1 0 - vals.getD (1 - 1) 0 = 0 := by
        simp only at h
        exact le_antisymm (not_lt.mp h) (by simpa using hgap1)
      rw [hz]
  simp only [nClustersFrom, claimedClusterCount, eigengapHeuristic,
    claimedGaps, firstArgmax, hlen, if_neg hn2, hrange, List.map_cons,
    List.foldl_cons, foldl_gap_map, hstep, minClusters, maxClusters]
  set X := ((List.range' 2 (n - 2)).map
    (fun i => (i, vals.getD i 0 - vals.getD (i - 1) 0))).foldl
    (fun b p => if b.2 < p.2 then p else b)
    (1, vals.getD 1 0 - vals.getD (1 - 1) 0) with hX
  by_cases hx : X.1 < 2
  · rw [if_pos hx]
    omega
  · rw [if_neg hx]
    omega

/-- C5: the cluster count used by `build_spectral_structure` on `n ≥ 3`
notes is the index of the largest consecutive eigenvalue gap of the
ascending eigenvalue sequence, scanned over `i ∈ [1, n)`, clamped into
`[2, 12]` and further clamped to at most `n` (the hypothesis
`vals.length = n` pins the claim's reading that the scanned sequence has
one eigenvalue per note; the Lanczos path returns `min(8, n)`
eigenvalues, so for `n > 8` the code scans `[1, 8)` instead). -/
theorem buildClusterCount_eigengap (sqrtO : ℚ → ℚ)
    (eigO : Mat → Option (List ℚ × Mat)) (g : Graph) (vals : List ℚ)
    (vecs : Mat) (hn : 3 ≤ g.notes.length)
    (heig : eigO (normalizedLaplacian sqrtO (buildSimilarity sqrtO g)) =
      some (vals, vecs))
    (hlen : vals.length = g.notes.length)
    (hasc : vals.Chain' (· ≤ ·)) :
    buildClusterCount sqrtO eigO g =
      some (claimedClusterCount g.notes.length vals) := by
  simp only [buildClusterCount, heig, Option.map_some']
  exact congrArg some (nClustersFrom_eq_claimed vals g.notes.length hn hlen hasc)

end SpectralCortex

namespace SpectralCortex

/-! ## Claim C1 — long-range link invariant -/

theorem computeSpectralEmbeddings_length (sqrtO : ℚ → ℚ) (evecs : Mat)
    (k : ℕ) (rn : Bool) :
    (computeSpectralEmbeddings sqrtO evecs k rn).length = evecs.length := by
  simp only [computeSpectralEmbeddings]
  cases rn <;> simp

/-- Every emitted pair of `detect_long_range_links` (no `top_k`) comes
from indices `i < j < n` with spectral similarity above the first
threshold and stored embedding similarity below the second. -/
theorem mem_detectLongRangeLinks (sqrtO : ℚ → ℚ) (spec embSim : Mat)
    (thr1 thr2 : ℚ) (noteIds : List ℕ) {x : ℕ × ℕ × ℚ}
    (hx : x ∈ detectLongRangeLinks sqrtO spec embSim thr1 thr2 noteIds none) :
    ∃ i j, i < j ∧ j < spec.length ∧
      x.1 = noteIds.getD i 0 ∧ x.2.1 = noteIds.getD j 0 ∧
      thr1 < x.2.2 ∧ mget embSim i j < thr2 := by
  simp only [detectLongRangeLinks, List.mem_insertionSort,
    List.mem_flatMap] at hx
  obtain ⟨i, hi, hxi⟩ := hx
  rw [List.mem_filterMap] at hxi
  obtain ⟨j, hj, hxj⟩ := hxi
  rw [List.mem_range] at hi
  rw [List.mem_range'_1] at hj
  refine ⟨i, j, by omega, by omega, ?_⟩
  split at hxj
  · next hcond =>
    obtain ⟨h1, h2⟩ := hcond
    cases hxj
    exact ⟨rfl, rfl, h1, h2⟩
  · next => cases hxj

/-- C1: after a successful `build_spectral_structure` on a graph with at
least 3 notes, every stored triple `(a, b, s)` in `long_range_links`
satisfies `a < b`, `s > SPECTRAL_LINK_SIM (= 0.70)`, and the stored
sparsified similarity entry of the index pair of `a` and `b` is
`< EMBED_LINK_SIM (= 0.50)`. -/
theorem buildSpectralStructure_longRangeLinks (sqrtO : ℚ → ℚ)
    (eigO : Mat → Option (List ℚ × Mat)) (kmO : Mat → ℕ → Option (List ℕ))
    (g g' : Graph) (links : List (ℕ × ℕ × ℚ)) (vals : List ℚ) (vecs : Mat)
    (hn : 3 ≤ g.notes.length)
    (hnd : (g.notes.map Prod.fst).Nodup)
    (heig : eigO (normalizedLaplacian sqrtO (buildSimilarity sqrtO g)) =
      some (vals, vecs))
    (hrows : vecs.length = g.notes.length)
    (hb : g.buildSpectralStructure sqrtO eigO kmO = some g')
    (hl : g'.longRangeLinks = some links) :
    ∀ a b s, (a, b, s) ∈ links →
      a < b ∧ spectralLinkSim < s ∧
      ∃ sim i j, g'.similarityMatrix = some sim ∧ i < j ∧
        (noteIdsOf g).getD i 0 = a ∧ (noteIdsOf g).getD j 0 = b ∧
        mget sim i j < embedLinkSim := by
  have hnlt : ¬ g.notes.length < 3 := by omega
  simp only [Graph.buildSpectralStructure, if_neg hnlt, heig] at hb
  cases hkm : kmO (computeSpectralEmbeddings sqrtO vecs
      (min smgNumSpectralDims (g.notes.length - 1)) true)
      (nClustersFrom vals g.notes.length) with
  | none =>
    rw [hkm] at hb
    cases hb
  | some labels =>
    rw [hkm] at hb
    simp only [Option.some.injEq] at hb
    subst hb
    simp only [Option.some.injEq] at hl
    subst hl
    intro a b s hmem
    obtain ⟨i, j, hij, hjlen, ha, hb2, hs, hsim⟩ :=
      mem_detectLongRangeLinks sqrtO _ _ _ _ _ hmem
    have hspec : (computeSpectralEmbeddings sqrtO vecs
        (min smgNumSpectralDims (g.notes.length - 1)) true).length =
        g.notes.length := by
      rw [computeSpectralEmbeddings_length, hrows]
    rw [hspec] at hjlen
    have hlen : (noteIdsOf g).length = g.notes.length := by
      simp only [noteIdsOf]
      rw [List.length_insertionSort, List.length_map]
    have hpair : (noteIdsOf g).Pairwise (· < ·) := by
      have hsorted : (noteIdsOf g).Pairwise (· ≤ ·) :=
        List.sorted_insertionSort (fun a b : ℕ => a ≤ b) _
      have hnodup : (noteIdsOf g).Nodup :=
        ((List.perm_insertionSort (fun a b : ℕ => a ≤ b) _).nodup_iff).mpr hnd
      exact (hsorted.and hnodup).imp
        (fun hab => lt_of_le_of_ne hab.1 hab.2)
    dsimp only at ha hb2 hs hsim
    have hab : a < b := by
      have hi' : i < (noteIdsOf g).length := by omega
      have hj' : j < (noteIdsOf g).length := by omega
      have hlt := List.pairwise_iff_getElem.mp hpair i j hi' hj' hij
      rw [ha, hb2, List.getD_eq_getElem (noteIdsOf g) 0 hi',
        List.getD_eq_getElem (noteIdsOf g) 0 hj']
      exact hlt
    refine ⟨hab, hs, buildSimilarity sqrtO g, i, j, rfl, hij, ha.symm,
      hb2.symm, hsim⟩

end SpectralCortex

namespace SpectralCortex

/-! ## Concrete build fixture for the C1 / C5 witnesses -/

/-- Three notes with unit embeddings `[1,0]`, `[0,1]`, `[0,1]`. -/
def noteB (i : ℕ) (e : Vec) (t : ℕ) : Note :=
  { noteId := i
    rawContent := []
    context := []
    embedding := e
    norm := 1
    sourceTurnIds := [t]
    sourceCommitIds := [none]
    sourceTimestamps := [t]
    spectralCoords := none
    relatedNoteIds := [] }

def gBuild : Graph :=
  { Graph.new with
    notes := [(0, noteB 0 [1, 0] 10), (1, noteB 1 [0, 1] 20), (2, noteB 2 [0, 1] 30)]
    nextId := 3 }

/-- Square-root oracle exact on the only norm value arising (`1`). -/
def sqrtB : ℚ → ℚ := fun q => if q = 1 then 1 else 0

/-- Eigensolver oracle: eigenvalues `[0, 0, 1]` ascending, eigenvector
matrix with three identical rows. -/
def eigB : Mat → Option (List ℚ × Mat) :=
  fun _ => some ([0, 0, 1], [[1, 0, 0], [1, 0, 0], [1, 0, 0]])

/-- K-means oracle returning a fixed labelling. -/
def kmB : Mat → ℕ → Option (List ℕ) := fun _ _ => some [0, 1, 0]

/-- Witness for C5 at the concrete fixture (`n = 3`, eigenvalues
`[0, 0, 1]`). -/
theorem buildClusterCount_eigengap_witness :
    buildClusterCount sqrtB eigB gBuild =
      some (claimedClusterCount gBuild.notes.length [0, 0, 1]) :=
  buildClusterCount_eigengap sqrtB eigB gBuild [0, 0, 1]
    [[1, 0, 0], [1, 0, 0], [1, 0, 0]] (by decide) rfl rfl
    (by norm_num [List.chain'_cons])

/-- Witness for C1 at the concrete fixture. -/
theorem buildSpectralStructure_longRangeLinks_witness :
    ∃ g' links, gBuild.buildSpectralStructure sqrtB eigB kmB = some g' ∧
      g'.longRangeLinks = some links ∧
      ∀ a b s, (a, b, s) ∈ links →
        a < b ∧ spectralLinkSim < s ∧
        ∃ sim i j, g'.similarityMatrix = some sim ∧ i < j ∧
          (noteIdsOf gBuild).getD i 0 = a ∧ (noteIdsOf gBuild).getD j 0 = b ∧
          mget sim i j < embedLinkSim := by
  refine ⟨_, _, rfl, rfl, ?_⟩
  exact buildSpectralStructure_longRangeLinks sqrtB eigB kmB gBuild _ _
    [0, 0, 1] [[1, 0, 0], [1, 0, 0], [1, 0, 0]] (by decide) (by decide)
    rfl rfl rfl rfl

end SpectralCortex
